import Mathlib

/-!
# owl-db: the filter evaluator, the update executor and the index maintainer

A shallow embedding of `owl-db-core` (Go).  Go values of type `interface{}` become the
inductive type `Value`; a Go `map[string]interface{}` becomes an association list whose
order stands for the order in which one run of `range` visits the map; in-place mutation
becomes state passing; a run-time panic becomes the outcome `panic`.
-/

namespace OwlDB

/-! ## Values -/

/-- A Go `float64`: not-a-number, an infinity, or a finite number (negative zero is
identified with zero, which `<` and `==` cannot tell apart). -/
inductive F64 where
  | nan
  | inf (neg : Bool)
  | fin (q : ℚ)
  deriving DecidableEq, Repr

/-- Go's `a < b` on `float64`. -/
def F64.lt : F64 → F64 → Bool
  | .fin a, .fin b => decide (a < b)
  | .inf true, .fin _ => true
  | .inf true, .inf false => true
  | .fin _, .inf false => true
  | _, _ => false

/-- Go's `a == b` on `float64`. -/
def F64.eq : F64 → F64 → Bool
  | .fin a, .fin b => decide (a = b)
  | .inf a, .inf b => a == b
  | _, _ => false

/-- The dynamic value of a Go `interface{}`, over the dynamic types the source inspects and
the ones the BSON library decodes into: `nil`, `bool`, `int`, `int32`, `int64`, `float64`,
`string`, `time.Time`, `primitive.DateTime`, `[]interface{}` (`arr`), `primitive.A` (`arrA`,
the type of every array that `bson.Unmarshal` returns) and `map[string]interface{}`. -/
inductive Value where
  | null
  | bool (b : Bool)
  | int (n : Int)
  | int32 (n : Int)
  | int64 (n : Int)
  | float (x : F64)
  | str (s : String)
  | time (t : Int)
  | datetime (t : Int)
  | arr (xs : List Value)
  | arrA (xs : List Value)
  | obj (kvs : List (String × Value))
  deriving Repr

/-- A Go `map[string]interface{}`. -/
abbrev Doc := List (String × Value)

/-- The map assignment `m[k] = v`: an existing key keeps its place, a new key is added. -/
def Doc.set : Doc → String → Value → Doc
  | [], k, v => [(k, v)]
  | (k1, v1) :: rest, k, v => if k1 = k then (k, v) :: rest else (k1, v1) :: Doc.set rest k v

/-- The map deletion `delete(m, k)`. -/
def Doc.delete (m : Doc) (k : String) : Doc :=
  m.filter (fun kv => !(kv.1 == k))

/-! ## Paths -/

/-- The pieces of a character list between dots. -/
def splitDots : List Char → List (List Char)
  | [] => [[]]
  | c :: cs =>
    if c = '.' then [] :: splitDots cs
    else
      match splitDots cs with
      | [] => [[c]]
      | p :: ps => (c :: p) :: ps

/-- Go's `strings.Split(s, ".")`. -/
def Split (s : String) : List String :=
  (splitDots s.data).map String.mk

/-- Source: `getNestedValue` in collection.go.  `none` is the result `(nil, false)`. -/
def getNestedValue : Value → List String → Option Value
  | value, [] => some value
  | .obj nestedDoc, key :: keys =>
    match nestedDoc.lookup key with
    | some val => getNestedValue val keys
    | none => none
  | _, _ :: _ => none

/-- Source: `getFindNestedValue` in methods.find.go. -/
def getFindNestedValue (m : Doc) : List String → Value
  | [] => .obj m
  | key :: keys =>
    match m.lookup key with
    | some (.obj nested) => getFindNestedValue nested keys
    | some v => v
    | none => .null

/-! ## Equality -/

mutual
/-- Go's `reflect.DeepEqual` on two dynamic values. -/
def deepEqual : Value → Value → Bool
  | .null, .null => true
  | .bool a, .bool b => a == b
  | .int a, .int b => a == b
  | .int32 a, .int32 b => a == b
  | .int64 a, .int64 b => a == b
  | .float a, .float b => F64.eq a b
  | .str a, .str b => a == b
  | .time a, .time b => a == b
  | .datetime a, .datetime b => a == b
  | .arr xs, .arr ys => deepEqualList xs ys
  | .arrA xs, .arrA ys => deepEqualList xs ys
  | .obj m, .obj n => m.length == n.length && deepEqualFields m n
  | _, _ => false
/-- The element-wise part of `reflect.DeepEqual` on slices. -/
def deepEqualList : List Value → List Value → Bool
  | [], [] => true
  | x :: xs, y :: ys => deepEqual x y && deepEqualList xs ys
  | _, _ => false
/-- The key-wise part of `reflect.DeepEqual` on maps: every key of the first map is in the
second with a deeply equal value. -/
def deepEqualFields : List (String × Value) → List (String × Value) → Bool
  | [], _ => true
  | (k, v) :: rest, n =>
    (match n.lookup k with
     | some w => deepEqual v w
     | none => false) && deepEqualFields rest n
end

/-- Go's `a == b` on two `interface{}` values.  `none` is the run-time panic Go raises when
both hold the same uncomparable dynamic type (a slice or a map). -/
def goEq : Value → Value → Option Bool
  | .null, .null => some true
  | .bool a, .bool b => some (a == b)
  | .int a, .int b => some (a == b)
  | .int32 a, .int32 b => some (a == b)
  | .int64 a, .int64 b => some (a == b)
  | .float a, .float b => some (F64.eq a b)
  | .str a, .str b => some (a == b)
  | .time a, .time b => some (a == b)
  | .datetime a, .datetime b => some (a == b)
  | .arr _, .arr _ => none
  | .arrA _, .arrA _ => none
  | .obj _, .obj _ => none
  | _, _ => some false

/-! ## Filter evaluator (methods.find.go) -/

mutual
/-- A value held by a `Filter`: a plain dynamic value, an operator object of Go type
`Filter`, or a list of sub-filters of Go type `[]Filter`. -/
inductive FilterVal where
  | lit (v : Value)
  | filter (f : Filter)
  | filters (fs : List Filter)
/-- Source: `type Filter map[string]interface{}`. -/
inductive Filter where
  | mk (entries : List (String × FilterVal))
end

/-- Go's `reflect.DeepEqual(fieldValue, value)` for a document value and a filter value: a
document never holds a `Filter` or a `[]Filter`. -/
def deepEqualF : Value → FilterVal → Bool
  | a, .lit b => deepEqual a b
  | _, _ => false

/-- Source: `compare` in methods.find.go. -/
def compare (a : Value) (b : FilterVal) : Int :=
  match a, b with
  | .float a, .lit (.float b) => if F64.lt a b then -1 else if F64.lt b a then 1 else 0
  | .time a, .lit (.time b) => if a < b then -1 else if b < a then 1 else 0
  | _, _ => -1

/-- Source: `checkType` in methods.find.go. -/
def checkType (fieldValue : Value) (expectedType : FilterVal) : Bool :=
  match expectedType with
  | .lit (.str expectedTypeStr) =>
    if expectedTypeStr = "string" then (match fieldValue with | .str _ => true | _ => false)
    else if expectedTypeStr = "int" then (match fieldValue with | .int _ => true | _ => false)
    else if expectedTypeStr = "float" then (match fieldValue with | .float _ => true | _ => false)
    else if expectedTypeStr = "bool" then (match fieldValue with | .bool _ => true | _ => false)
    else if expectedTypeStr = "time" then (match fieldValue with | .time _ => true | _ => false)
    else false
  | _ => false

/-- Go's `regexp.MatchString(pattern, s)`, a library outside the repository: `none` is its
error for a pattern that does not compile. -/
abbrev Regexp := String → String → Option Bool

/-- Source: `applyRegex` in methods.find.go. -/
def applyRegex (re : Regexp) (fieldValue : Value) (pattern : FilterVal) : Bool :=
  match fieldValue, pattern with
  | .str strValue, .lit (.str patternStr) => (re patternStr strValue).getD false
  | _, _ => false

/-- Source: `isIn` in methods.find.go. -/
def isIn (fieldValue : Value) (values : FilterVal) : Bool :=
  match values with
  | .lit (.arr vals) => vals.any (fun v => deepEqual fieldValue v)
  | _ => false

mutual
/-- Source: `matchDocument` in methods.find.go. -/
def matchDocument (re : Regexp) (doc : Doc) : Filter → Bool
  | .mk filters => matchEntries re doc filters
/-- The loop `for field, value := range filters` of `matchDocument`: the entries are visited
in list order. -/
def matchEntries (re : Regexp) (doc : Doc) : List (String × FilterVal) → Bool
  | [] => true
  | (field, value) :: rest =>
    if field = "$and" then
      match value with
      | .filters subFilters =>
        if matchAll re doc subFilters then matchEntries re doc rest else false
      | _ => false
    else if field = "$or" then
      match value with
      | .filters subFilters => matchAny re doc subFilters
      | _ => false
    else if field = "$nor" then
      match value with
      | .filters subFilters => !matchAny re doc subFilters
      | _ => false
    else
      if applyOperator re doc field value then matchEntries re doc rest else false
/-- The loop of `$and`: false at the first sub-filter that does not match. -/
def matchAll (re : Regexp) (doc : Doc) : List Filter → Bool
  | [] => true
  | subFilter :: rest =>
    if matchDocument re doc subFilter then matchAll re doc rest else false
/-- The loop of `$or` and `$nor`: true at the first sub-filter that matches. -/
def matchAny (re : Regexp) (doc : Doc) : List Filter → Bool
  | [] => false
  | subFilter :: rest =>
    if matchDocument re doc subFilter then true else matchAny re doc rest
/-- Source: `applyOperator` in methods.find.go. -/
def applyOperator (re : Regexp) (doc : Doc) (field : String) : FilterVal → Bool
  | .filter (.mk v) => applyOperators re doc field v
  | .lit value => deepEqual (getFindNestedValue doc (Split field)) value
  | .filters _ => false
/-- The loop `for op, opVal := range v` of `applyOperator`: the first operator visited
returns. -/
def applyOperators (re : Regexp) (doc : Doc) (field : String) :
    List (String × FilterVal) → Bool
  | [] => false
  | (op, opVal) :: _ =>
    if op = "$gt" then decide (compare (getFindNestedValue doc (Split field)) opVal > 0)
    else if op = "$lt" then decide (compare (getFindNestedValue doc (Split field)) opVal < 0)
    else if op = "$gte" then decide (compare (getFindNestedValue doc (Split field)) opVal ≥ 0)
    else if op = "$lte" then decide (compare (getFindNestedValue doc (Split field)) opVal ≤ 0)
    else if op = "$in" then isIn (getFindNestedValue doc (Split field)) opVal
    else if op = "$nin" then !isIn (getFindNestedValue doc (Split field)) opVal
    else if op = "$ne" then !deepEqualF (getFindNestedValue doc (Split field)) opVal
    else if op = "$exists" then
      deepEqualF (.bool (match getFindNestedValue doc (Split field) with
        | .null => false
        | _ => true)) opVal
    else if op = "$type" then checkType (getFindNestedValue doc (Split field)) opVal
    else if op = "$regex" then applyRegex re (getFindNestedValue doc (Split field)) opVal
    else if op = "$not" then !applyOperator re doc field opVal
    else false
end

/-! ## Update executor (methods.update.go) -/

/-- A Go `error` value. -/
inductive Error where
  | keyNotFound
  | codec
  | msg (text : String)
  deriving DecidableEq, Repr

/-- How a call ended: it returned a nil error, it returned an error, or it panicked. -/
inductive Outcome where
  | ok
  | error (e : Error)
  | panic
  deriving DecidableEq, Repr

/-- Go's `a + b` on `float64`, an operation of the language: a parameter of the model. -/
abbrev FloatAdd := F64 → F64 → F64

/-- The body of `updateNestedField` over the split path: walk all keys but the last,
replacing whatever is not a nested map by a new map, then assign the last key.  (Here and
in the bodies below the empty key list does not occur: `Split` returns at least one piece.) -/
def updateNestedFieldKeys (m : Doc) : List String → Value → Doc
  | [], _ => m
  | [lastKey], value => Doc.set m lastKey value
  | key :: k2 :: rest, value =>
    match m.lookup key with
    | some (.obj nested) => Doc.set m key (.obj (updateNestedFieldKeys nested (k2 :: rest) value))
    | _ => Doc.set m key (.obj (updateNestedFieldKeys [] (k2 :: rest) value))

/-- Source: `updateNestedField` in methods.update.go. -/
def updateNestedField (doc : Doc) (path : String) (value : Value) : Doc :=
  updateNestedFieldKeys doc (Split path) value

/-- The body of `incrementField` over the split path. -/
def incrementFieldKeys (fadd : FloatAdd) (path : String) (m : Doc) :
    List String → Value → Doc × Outcome
  | [], _ => (m, .panic)
  | [lastKey], increment =>
    match m.lookup lastKey with
    | some (.float currentValue) =>
      match increment with
      | .float incValue => (Doc.set m lastKey (.float (fadd currentValue incValue)), .ok)
      | _ => (m, .error (.msg "invalid increment value"))
    | _ => (m, .error (.msg ("field " ++ path ++ " is not a number")))
  | key :: k2 :: rest, increment =>
    match m.lookup key with
    | some (.obj nested) =>
      ((Doc.set m key (.obj (incrementFieldKeys fadd path nested (k2 :: rest) increment).1)),
        (incrementFieldKeys fadd path nested (k2 :: rest) increment).2)
    | _ => (m, .error (.msg ("field " ++ path ++ " not found")))

/-- Source: `incrementField` in methods.update.go. -/
def incrementField (fadd : FloatAdd) (doc : Doc) (path : String) (increment : Value) :
    Doc × Outcome :=
  incrementFieldKeys fadd path doc (Split path) increment

/-- The body of `deleteNestedField` over the split path. -/
def deleteNestedFieldKeys (m : Doc) : List String → Doc
  | [] => m
  | [lastKey] => Doc.delete m lastKey
  | key :: k2 :: rest =>
    match m.lookup key with
    | some (.obj nested) => Doc.set m key (.obj (deleteNestedFieldKeys nested (k2 :: rest)))
    | _ => m

/-- Source: `deleteNestedField` in methods.update.go. -/
def deleteNestedField (doc : Doc) (path : String) : Doc :=
  deleteNestedFieldKeys doc (Split path)

/-- Source: `renameField` in methods.update.go. -/
def renameField (doc : Doc) (oldKey : String) (newKey : String) : Doc × Outcome :=
  match getNestedValue (.obj doc) (Split oldKey) with
  | none => (doc, .error (.msg ("field " ++ oldKey ++ " not found")))
  | some oldValue => (updateNestedField (deleteNestedField doc oldKey) newKey oldValue, .ok)

/-- The body of `pushToArray` over the split path. -/
def pushToArrayKeys (m : Doc) : List String → Value → Doc
  | [], _ => m
  | [lastKey], value =>
    match m.lookup lastKey with
    | some (.arr array) => Doc.set m lastKey (.arr (array ++ [value]))
    | _ => Doc.set m lastKey (.arr [value])
  | key :: k2 :: rest, value =>
    match m.lookup key with
    | some (.obj nested) => Doc.set m key (.obj (pushToArrayKeys nested (k2 :: rest) value))
    | _ => Doc.set m key (.obj (pushToArrayKeys [] (k2 :: rest) value))

/-- Source: `pushToArray` in methods.update.go (it always returns a nil error). -/
def pushToArray (doc : Doc) (path : String) (value : Value) : Doc × Outcome :=
  (pushToArrayKeys doc (Split path) value, .ok)

/-- The loop of `pullFromArray` over the array: the array without the first element `v` with
`v == value`, or `none` when a comparison panics before such an element is found. -/
def pullFirst (value : Value) : List Value → Option (List Value)
  | [] => some []
  | v :: rest =>
    match goEq v value with
    | none => none
    | some true => some rest
    | some false => (pullFirst value rest).map (fun r => v :: r)

/-- The body of `pullFromArray` over the split path. -/
def pullFromArrayKeys (m : Doc) : List String → Value → Doc × Outcome
  | [], _ => (m, .panic)
  | [lastKey], value =>
    match m.lookup lastKey with
    | some (.arr array) =>
      match pullFirst value array with
      | some array2 => (Doc.set m lastKey (.arr array2), .ok)
      | none => (m, .panic)
    | _ => (m, .ok)
  | key :: k2 :: rest, value =>
    match m.lookup key with
    | some (.obj nested) =>
      ((Doc.set m key (.obj (pullFromArrayKeys nested (k2 :: rest) value).1)),
        (pullFromArrayKeys nested (k2 :: rest) value).2)
    | _ => (m, .ok)

/-- Source: `pullFromArray` in methods.update.go. -/
def pullFromArray (doc : Doc) (path : String) (value : Value) : Doc × Outcome :=
  pullFromArrayKeys doc (Split path) value

/-- The body of `popFromArray` over the split path. -/
def popFromArrayKeys (path : String) (fromEnd : Bool) (m : Doc) : List String → Doc × Outcome
  | [] => (m, .panic)
  | [lastKey] =>
    match m.lookup lastKey with
    | some (.arr array) =>
      if array.length = 0 then (m, .ok)
      else if fromEnd then (Doc.set m lastKey (.arr array.dropLast), .ok)
      else (Doc.set m lastKey (.arr (array.drop 1)), .ok)
    | _ => (m, .ok)
  | key :: k2 :: rest =>
    match m.lookup key with
    | some (.obj nested) =>
      ((Doc.set m key (.obj (popFromArrayKeys path fromEnd nested (k2 :: rest)).1)),
        (popFromArrayKeys path fromEnd nested (k2 :: rest)).2)
    | _ => (m, .error (.msg ("field " ++ path ++ " not found")))

/-- Source: `popFromArray` in methods.update.go. -/
def popFromArray (doc : Doc) (path : String) (fromEnd : Bool) : Doc × Outcome :=
  popFromArrayKeys path fromEnd doc (Split path)

/-- The loop of `addToSet` over the array: `some true` when an element `v` with `v == value`
is found, `some false` when none is, `none` when a comparison panics first. -/
def setContains (value : Value) : List Value → Option Bool
  | [] => some false
  | v :: rest =>
    match goEq v value with
    | none => none
    | some true => some true
    | some false => setContains value rest

/-- The body of `addToSet` over the split path. -/
def addToSetKeys (m : Doc) : List String → Value → Doc × Outcome
  | [], _ => (m, .panic)
  | [lastKey], value =>
    match m.lookup lastKey with
    | some (.arr array) =>
      match setContains value array with
      | none => (m, .panic)
      | some true => (m, .ok)
      | some false => (Doc.set m lastKey (.arr (array ++ [value])), .ok)
    | _ => (Doc.set m lastKey (.arr [value]), .ok)
  | key :: k2 :: rest, value =>
    match m.lookup key with
    | some (.obj nested) =>
      ((Doc.set m key (.obj (addToSetKeys nested (k2 :: rest) value).1)),
        (addToSetKeys nested (k2 :: rest) value).2)
    | _ =>
      ((Doc.set m key (.obj (addToSetKeys [] (k2 :: rest) value).1)),
        (addToSetKeys [] (k2 :: rest) value).2)

/-- Source: `addToSet` in methods.update.go. -/
def addToSet (doc : Doc) (path : String) (value : Value) : Doc × Outcome :=
  addToSetKeys doc (Split path) value

/-- The loop `for key, value := range fields` of one operator in `applyUpdate`: the entries
are visited in list order and the first error (or panic) ends the loop. -/
def forEachField (f : Doc → String → Value → Doc × Outcome) : Doc → List (String × Value) →
    Doc × Outcome
  | doc, [] => (doc, .ok)
  | doc, (key, value) :: rest =>
    match f doc key value with
    | (doc2, .ok) => forEachField f doc2 rest
    | r => r

/-- The inner loop of `$pullAll`: one `pullFromArray` per listed value. -/
def pullAllValues (doc : Doc) (key : String) : List Value → Doc × Outcome
  | [] => (doc, .ok)
  | value :: rest =>
    match pullFromArray doc key value with
    | (doc2, .ok) => pullAllValues doc2 key rest
    | r => r

/-- One operator of `applyUpdate`: the case of the `switch op` for `op`, applied to
`fields`. -/
def applyOperatorUpdate (fadd : FloatAdd) (doc : Doc) (op : String) (fields : Value) :
    Doc × Outcome :=
  if op = "$set" then
    match fields with
    | .obj setFields =>
      forEachField (fun d key value => (updateNestedField d key value, .ok)) doc setFields
    | _ => (doc, .error (.msg "invalid $set operation"))
  else if op = "$inc" then
    match fields with
    | .obj incFields => forEachField (incrementField fadd) doc incFields
    | _ => (doc, .error (.msg "invalid $inc operation"))
  else if op = "$unset" then
    match fields with
    | .obj unsetFields =>
      forEachField (fun d key _ => (deleteNestedField d key, .ok)) doc unsetFields
    | _ => (doc, .error (.msg "invalid $unset operation"))
  else if op = "$rename" then
    match fields with
    | .obj renameFields =>
      forEachField (fun d oldKey newKey =>
        match newKey with
        | .str newKeyStr => renameField d oldKey newKeyStr
        | _ => (d, .error (.msg "new key in $rename must be a string"))) doc renameFields
    | _ => (doc, .error (.msg "invalid $rename operation"))
  else if op = "$push" then
    match fields with
    | .obj pushFields => forEachField pushToArray doc pushFields
    | _ => (doc, .error (.msg "invalid $push operation"))
  else if op = "$pull" then
    match fields with
    | .obj pullFields => forEachField pullFromArray doc pullFields
    | _ => (doc, .error (.msg "invalid $pull operation"))
  else if op = "$pullAll" then
    match fields with
    | .obj pullAllFields =>
      forEachField (fun d key values =>
        match values with
        | .arr valueSlice => pullAllValues d key valueSlice
        | _ => (d, .error (.msg "invalid value for $pullAll operation"))) doc pullAllFields
    | _ => (doc, .error (.msg "invalid $pullAll operation"))
  else if op = "$pop" then
    match fields with
    | .obj popFields =>
      forEachField (fun d key value =>
        match value with
        | .float v =>
          if F64.eq v (.fin 1) then popFromArray d key true
          else if F64.eq v (.fin (-1)) then popFromArray d key false
          else (d, .error (.msg "invalid value for $pop operation"))
        | _ => (d, .error (.msg "invalid value for $pop operation"))) doc popFields
    | _ => (doc, .error (.msg "invalid $pop operation"))
  else if op = "$addToSet" then
    match fields with
    | .obj addToSetFields => forEachField addToSet doc addToSetFields
    | _ => (doc, .error (.msg "invalid $addToSet operation"))
  else (doc, .error (.msg ("unsupported update operator: " ++ op)))

/-- Source: `type Update map[string]interface{}`. -/
abbrev Update := List (String × Value)

/-- Source: `applyUpdate` in methods.update.go.  The operators are visited in list order; the
document returned next to an error is the document as the operators before it left it. -/
def applyUpdate (fadd : FloatAdd) (doc : Doc) : Update → Doc × Outcome
  | [] => (doc, .ok)
  | (op, fields) :: rest =>
    match applyOperatorUpdate fadd doc op fields with
    | (doc2, .ok) => applyUpdate fadd doc2 rest
    | r => r

/-! ## Store, codec and collection (collection.go, methods.insert.go, native.update.go) -/

/-- The key-value store as one transaction sees it: a finite map from keys to values of a
byte type `B`.  Reads see the writes made before them; writes and deletes do not fail. -/
abbrev Store (B : Type) := List (String × B)

/-- Badger's `txn.Get`: `none` is `ErrKeyNotFound`. -/
def Store.get {B : Type} (s : Store B) (key : String) : Option B :=
  s.lookup key

/-- Badger's `txn.Delete`. -/
def Store.delete {B : Type} (s : Store B) (key : String) : Store B :=
  s.filter (fun kv => !(kv.1 == key))

/-- Badger's `txn.Set`. -/
def Store.set {B : Type} (s : Store B) (key : String) (val : B) : Store B :=
  (key, val) :: Store.delete s key

/-- The document codec (BSON), a library outside the repository: `Marshal` on a typed
document, `Marshal` on a map, `Unmarshal` into a map (`none` is an error), and the
conversion `[]byte(s)` of a string. -/
structure Codec (T B : Type) where
  Marshal : T → Option B
  MarshalMap : Doc → Option B
  Unmarshal : B → Option Doc
  bytes : String → B

/-- Source: the interface `Document` in document.go, for a document type `T`.  The two
timestamp setters are given the clock reading they store. -/
structure Document (T : Type) where
  GetID : T → String
  SetID : T → String → T
  SetCreatedAt : Int → T → T
  SetUpdatedAt : Int → T → T

/-- Source: `Collection` in collection.go (the store handle is passed to each operation). -/
structure Collection where
  Name : String
  Indexes : List String
  Timestamp : Bool

/-- Go's `fmt.Sprintf("%v", value)`, a library outside the repository. -/
abbrev Sprint := Value → String

/-- Source: `getIndexableFields` in collection.go; `marshal` is `bson.Marshal` at the type
of `doc`. -/
def getIndexableFields {A B : Type} (marshal : A → Option B) (unmarshal : B → Option Doc)
    (doc : A) (indexFields : List String) : Doc :=
  match marshal doc with
  | none => []
  | some bsonDoc =>
    match unmarshal bsonDoc with
    | none => []
    | some docMap =>
      indexFields.foldl (fun indexableFields field =>
        match getNestedValue (.obj docMap) (Split field) with
        | some value => Doc.set indexableFields field value
        | none => indexableFields) []

/-- Source: `Collection.Insert` in methods.insert.go.  `newID` is the value of
`primitive.NewObjectID().Hex()` and `now` the clock.  The result is the document as the
call left it, the store after the transaction, and the outcome; the store is the old one
when the transaction returns an error. -/
def Insert {T B : Type} (D : Document T) (cd : Codec T B) (fmtV : Sprint) (newID : String)
    (now : Int) (c : Collection) (db : Store B) (doc : T) : T × Store B × Outcome :=
  let doc1 := if D.GetID doc = "" then D.SetID doc newID else doc
  let docID := D.GetID doc1
  let key := c.Name ++ "|" ++ docID
  let doc2 := if c.Timestamp then D.SetCreatedAt now doc1 else doc1
  match cd.Marshal doc2 with
  | none => (doc2, db, .error .codec)
  | some serializedDoc =>
    let txn := Store.set db key serializedDoc
    let indexableFields := getIndexableFields cd.Marshal cd.Unmarshal doc2 c.Indexes
    (doc2,
      indexableFields.foldl (fun txn fv =>
        Store.set txn (c.Name ++ "|" ++ fv.1 ++ "|" ++ fmtV fv.2 ++ "|" ++ docID)
          (cd.bytes docID)) txn,
      .ok)

/-- Source: `Collection.FindByID` in methods.find.go. -/
def FindByID {T B : Type} (cd : Codec T B) (c : Collection) (db : Store B) (docID : String) :
    Except Error Doc :=
  match Store.get db (c.Name ++ "|" ++ docID) with
  | none => .error .keyNotFound
  | some val =>
    match cd.Unmarshal val with
    | none => .error .codec
    | some result => .ok result

/-- Source: `addIndexEntry` in methods.update.go. -/
def addIndexEntry {T B : Type} (cd : Codec T B) (fmtV : Sprint) (txn : Store B)
    (field : String) (value : Value) (docID : String) : Store B :=
  Store.set txn (field ++ "|" ++ fmtV value ++ "|" ++ docID) (cd.bytes docID)

/-- Source: `removeIndexEntry` in methods.update.go. -/
def removeIndexEntry {B : Type} (fmtV : Sprint) (txn : Store B)
    (field : String) (value : Value) (docID : String) : Store B :=
  Store.delete txn (field ++ "|" ++ fmtV value ++ "|" ++ docID)

/-- The test `!exists || otherValue != value` of both index loops of `nativeUpdate`, where
`otherValue, exists := other[field]`; `none` is the panic of `!=`. -/
def indexChanged (other : Doc) (field : String) (value : Value) : Option Bool :=
  match other.lookup field with
  | none => some true
  | some otherValue => (goEq otherValue value).map (fun b => !b)

/-- The first index loop of `nativeUpdate`: remove the entry of every old field whose value
is gone or changed.  `none` is a panic. -/
def removeOldEntries {B : Type} (fmtV : Sprint) (newIndexableFields : Doc) (docID : String) :
    Store B → List (String × Value) → Option (Store B)
  | txn, [] => some txn
  | txn, (field, oldValue) :: rest =>
    match indexChanged newIndexableFields field oldValue with
    | none => none
    | some true =>
      removeOldEntries fmtV newIndexableFields docID
        (removeIndexEntry fmtV txn field oldValue docID) rest
    | some false => removeOldEntries fmtV newIndexableFields docID txn rest

/-- The second index loop of `nativeUpdate`: add the entry of every new field whose value is
new or changed.  `none` is a panic. -/
def addNewEntries {T B : Type} (cd : Codec T B) (fmtV : Sprint) (oldIndexableFields : Doc)
    (docID : String) : Store B → List (String × Value) → Option (Store B)
  | txn, [] => some txn
  | txn, (field, newValue) :: rest =>
    match indexChanged oldIndexableFields field newValue with
    | none => none
    | some true =>
      addNewEntries cd fmtV oldIndexableFields docID
        (addIndexEntry cd fmtV txn field newValue docID) rest
    | some false => addNewEntries cd fmtV oldIndexableFields docID txn rest

/-- Source: `nativeUpdate` in native.update.go.  The result is the transaction's view of the
store, the document as the call left it, and the outcome. -/
def nativeUpdate {T B : Type} (cd : Codec T B) (fadd : FloatAdd) (fmtV : Sprint) (now : Int)
    (c : Collection) (txn : Store B) (doc : Doc) (docID : String) (update : Update) :
    Store B × Doc × Outcome :=
  let oldIndexableFields := getIndexableFields cd.MarshalMap cd.Unmarshal doc c.Indexes
  match applyUpdate fadd doc update with
  | (doc1, .ok) =>
    let newIndexableFields := getIndexableFields cd.MarshalMap cd.Unmarshal doc1 c.Indexes
    match removeOldEntries fmtV newIndexableFields docID txn oldIndexableFields with
    | none => (txn, doc1, .panic)
    | some txn1 =>
      match addNewEntries cd fmtV oldIndexableFields docID txn1 newIndexableFields with
      | none => (txn1, doc1, .panic)
      | some txn2 =>
        let doc2 := if c.Timestamp then Doc.set doc1 "updatedAt" (.time now) else doc1
        match cd.MarshalMap doc2 with
        | none => (txn2, doc2, .error .codec)
        | some updatedData => (Store.set txn2 (c.Name ++ "|" ++ docID) updatedData, doc2, .ok)
  | (doc1, out) => (txn, doc1, out)

/-- Source: `Collection.UpdateByID` in methods.update.go.  The store returned is the old one
unless the transaction function returns a nil error. -/
def UpdateByID {T B : Type} (cd : Codec T B) (fadd : FloatAdd) (fmtV : Sprint) (now : Int)
    (c : Collection) (db : Store B) (docID : String) (update : Update) : Store B × Outcome :=
  match Store.get db (c.Name ++ "|" ++ docID) with
  | none => (db, .error .keyNotFound)
  | some val =>
    match cd.Unmarshal val with
    | none => (db, .error .codec)
    | some doc =>
      match nativeUpdate cd fadd fmtV now c db doc docID update with
      | (txn, _, .ok) => (txn, .ok)
      | (_, _, out) => (db, out)

/-! ## Scan engine: skip and limit (native.find.go) -/

/-- Source: `SortField` in methods.find.go. -/
structure SortField where
  Field : String
  Order : Int

/-- Source: `FindOptions` in methods.find.go (`SortBy` is the field `Sort`, a reserved word
here). -/
structure FindOptions where
  Skip : Int
  Limit : Int
  SortBy : List SortField
  Select : List (String × Bool)

/-- Source: the last step of `nativeFind` in native.find.go, `// Apply skip and limit`, on
the result list as sorting left it. -/
def applySkipLimit {A : Type} (options : FindOptions) (results : List A) : List A :=
  if options.Skip > 0 ∧ options.Skip ≥ results.length then []
  else
    let results1 := if options.Skip > 0 then results.drop options.Skip.toNat else results
    if options.Limit > 0 ∧ options.Limit < results1.length then
      results1.take options.Limit.toNat
    else results1

/-! ## Scan engine: projection (methods.find.go) -/

/-- Go's `strings.Join(parts, ".")`. -/
def Join : List String → String
  | [] => ""
  | [p] => p
  | p :: q :: rest => p ++ "." ++ Join (q :: rest)

/-- Source: `isExcluded` in methods.find.go.  As in the source, the flag read from the
select map is named `exclude` and the result is its negation. -/
def isExcluded (key : String) (selectMap : List (String × Bool)) : Bool :=
  match selectMap.lookup key with
  | some exclude => !exclude
  | none =>
    match (List.range' 1 ((Split key).length - 1)).findSome?
        (fun i => selectMap.lookup (Join ((Split key).take i))) with
    | some exclude => !exclude
    | none => false

mutual
/-- Source: `removeExcludedFields` in methods.find.go.  The entries are visited in list
order; the document returned is the map as the deletions left it. -/
def removeExcludedFields (selectMap : List (String × Bool)) (currentPath : String) :
    List (String × Value) → List (String × Value)
  | [] => []
  | (key, value) :: rest =>
    if isExcluded (if currentPath = "" then key else currentPath ++ "." ++ key) selectMap then
      removeExcludedFields selectMap currentPath rest
    else
      match removeNested selectMap
          (if currentPath = "" then key else currentPath ++ "." ++ key) value with
      | some value2 => (key, value2) :: removeExcludedFields selectMap currentPath rest
      | none => removeExcludedFields selectMap currentPath rest
termination_by structural x => x
/-- The second half of the loop body of `removeExcludedFields` for a key that is not
excluded: a nested map is projected under `fullKeyPath` and the key is deleted (`none`) when
the nested map is then empty; any other value stays. -/
def removeNested (selectMap : List (String × Bool)) (fullKeyPath : String) :
    Value → Option Value
  | .obj nestedMap =>
    if (removeExcludedFields selectMap fullKeyPath nestedMap).length = 0 then none
    else some (.obj (removeExcludedFields selectMap fullKeyPath nestedMap))
  | value => some value
termination_by structural x => x
end

/-! ## Scan engine: sort comparator (native.find.go) -/

/-- Go's `a < b` on the characters of two strings: the order of the bytes of their UTF-8
encodings, which is the order of their code points. -/
def charsLess : List Char → List Char → Bool
  | _, [] => false
  | [], _ :: _ => true
  | a :: as, b :: bs =>
    if a.toNat < b.toNat then true
    else if b.toNat < a.toNat then false
    else charsLess as bs

/-- Go's `a < b` on strings. -/
def stringLess (a b : String) : Bool :=
  charsLess a.data b.data

/-- The type switch of the sort comparator of `nativeFind` on two present values.  `none`
is the panic of a type assertion `valJ.(T)` or `vI.(T)` that does not hold. -/
def lessValues (order : Int) (valI valJ : Value) : Option Bool :=
  match valI with
  | .str vI =>
    match valJ with
    | .str vJ => some (if order = 1 then stringLess vI vJ else stringLess vJ vI)
    | _ => none
  | .int _ => none
  | .int64 vI =>
    match valJ with
    | .int64 vJ => some (if order = 1 then decide (vI < vJ) else decide (vJ < vI))
    | _ => none
  | .float vI =>
    match valJ with
    | .float vJ => some (if order = 1 then F64.lt vI vJ else F64.lt vJ vI)
    | _ => none
  | .datetime vI =>
    match valJ with
    | .datetime vJ => some (if order = 1 then decide (vI < vJ) else decide (vJ < vI))
    | _ => none
  | .time vI =>
    match valJ with
    | .time vJ => some (if order = 1 then decide (vI < vJ) else decide (vJ < vI) || vI == vJ)
    | _ => none
  | _ => some false

/-- Source: the comparator passed to `sort.Slice` in `nativeFind`, on the two documents
`results[i]` and `results[j]`.  `none` is a panic. -/
def sortLess (x y : Doc) : List SortField → Option Bool
  | [] => some false
  | sortField :: rest =>
    match getNestedValue (.obj x) (Split sortField.Field),
      getNestedValue (.obj y) (Split sortField.Field) with
    | none, none => sortLess x y rest
    | none, some _ => some (sortField.Order == 1)
    | some _, none => some (sortField.Order != 1)
    | some valI, some valJ => lessValues sortField.Order valI valJ

/-! ## Key space, batch insert and first-match scan -/

/-- Source: the primary key `fmt.Sprintf("%s|%s", c.Name, docID)` built in `Insert`,
`InsertMany`, `FindByID`, `UpdateByID`, `nativeUpdate` and the `Delete` methods. -/
def primaryKey (name docID : String) : String :=
  name ++ "|" ++ docID

/-- Go's `bytes.HasPrefix(key, start)`, the test behind Badger's `ValidForPrefix`. -/
def startsWith (key start : String) : Bool :=
  start.data.isPrefixOf key.data

/-- The records the iterators of `nativeFind` and `nativeFindOne` visit, from
`iter.Seek(prefix)` while `iter.ValidForPrefix(prefix)` with the prefix `c.Name + "|"`.
(Badger visits them in key order; the list keeps the order of the store.) -/
def scanRecords {B : Type} (c : Collection) (txn : Store B) : List (String × B) :=
  txn.filter (fun kv => startsWith kv.1 (c.Name ++ "|"))

/-- Source: the function `insertDoc` inside `Collection.InsertMany` in methods.insert.go, on
the transaction; `newID` is the value of `primitive.NewObjectID().Hex()`. -/
def insertDoc {T B : Type} (D : Document T) (cd : Codec T B) (fmtV : Sprint) (newID : String)
    (c : Collection) (txn : Store B) (doc : T) : T × Store B × Outcome :=
  let doc1 := if D.GetID doc = "" then D.SetID doc newID else doc
  let docID := D.GetID doc1
  match cd.Marshal doc1 with
  | none => (doc1, txn, .error .codec)
  | some serializedDoc =>
    (doc1,
      (getIndexableFields cd.Marshal cd.Unmarshal doc1 c.Indexes).foldl (fun txn fv =>
        Store.set txn (c.Name ++ "|" ++ fv.1 ++ "|" ++ fmtV fv.2 ++ "|" ++ docID)
          (cd.bytes docID)) (Store.set txn (primaryKey c.Name docID) serializedDoc),
      .ok)

/-- The loop `for _, doc := range docs` of `Collection.InsertMany`, from the document number
`i` on; `newID i` is the ID generated for the document number `i`.  The first error ends the
loop. -/
def insertDocs {T B : Type} (D : Document T) (cd : Codec T B) (fmtV : Sprint)
    (newID : Nat → String) (c : Collection) : Nat → Store B → List T → Store B × Outcome
  | _, txn, [] => (txn, .ok)
  | i, txn, doc :: rest =>
    match insertDoc D cd fmtV (newID i) c txn doc with
    | (_, txn2, .ok) => insertDocs D cd fmtV newID c (i + 1) txn2 rest
    | (_, _, out) => (txn, out)

/-- Source: `Collection.InsertMany` in methods.insert.go.  The store returned is the old one
unless the transaction function returns a nil error. -/
def InsertMany {T B : Type} (D : Document T) (cd : Codec T B) (fmtV : Sprint)
    (newID : Nat → String) (c : Collection) (db : Store B) (docs : List T) :
    Store B × Outcome :=
  match insertDocs D cd fmtV newID c 0 db docs with
  | (txn, .ok) => (txn, .ok)
  | (_, out) => (db, out)

/-- Source: `FoundDocStruct` in methods.find.go; `none` is the nil map. -/
structure FoundDocStruct where
  doc : Option Doc
  found : Bool

/-- The documents among the scanned records that decode and match the filter, in scan
order. -/
def matchingDocs {T B : Type} (cd : Codec T B) (re : Regexp) (c : Collection) (txn : Store B)
    (filter : Filter) : List Doc :=
  (scanRecords c txn).filterMap (fun kv =>
    match cd.Unmarshal kv.2 with
    | some doc => if matchDocument re doc filter then some doc else none
    | none => none)

/-- Source: `nativeFindOne` in native.find.go.  The workers send every matching document to
the channel `foundDoc` and the function returns the first value received, which is the zero
`FoundDocStruct` when the channel is closed with nothing sent.  Which of several matching
documents arrives first is up to the scheduling of the workers; the model reports the first
in scan order. -/
def nativeFindOne {T B : Type} (cd : Codec T B) (re : Regexp) (c : Collection) (txn : Store B)
    (filter : Filter) : FoundDocStruct :=
  match matchingDocs cd re c txn filter with
  | [] => ⟨none, false⟩
  | doc :: _ => ⟨some doc, true⟩

/-- Source: `Collection.FindOne` in methods.find.go: the document of the result (`none` is
the nil map) and the error. -/
def FindOne {T B : Type} (cd : Codec T B) (re : Regexp) (c : Collection) (db : Store B)
    (filter : Filter) : Option Doc × Outcome :=
  ((nativeFindOne cd re c db filter).doc, .ok)

/-- Source: `Collection.UpdateOne` in methods.update.go. -/
def UpdateOne {T B : Type} (cd : Codec T B) (re : Regexp) (fadd : FloatAdd) (fmtV : Sprint)
    (now : Int) (c : Collection) (db : Store B) (filter : Filter) (update : Update) :
    Store B × Outcome :=
  match nativeFindOne cd re c db filter with
  | ⟨some doc, true⟩ =>
    match doc.lookup "_id" with
    | some (.str docID) =>
      match nativeUpdate cd fadd fmtV now c db doc docID update with
      | (txn, _, .ok) => (txn, .ok)
      | (_, _, out) => (db, out)
    | _ => (db, .panic)
  | ⟨none, true⟩ => (db, .panic)
  | ⟨_, false⟩ => (db, .error (.msg "no document found in result"))

/-! ## Delete (methods.delete.go) -/

/-- Source: `Collection.DeleteByID` in methods.delete.go.  The store returned is the old one
unless the transaction function returns a nil error. -/
def DeleteByID {B : Type} (c : Collection) (db : Store B) (docID : String) :
    Store B × Outcome :=
  match Store.get db (primaryKey c.Name docID) with
  | none => (db, .error .keyNotFound)
  | some _ => (Store.delete db (primaryKey c.Name docID), .ok)

/-! ## Fixtures for evaluation -/

/-- A document type backed by a map: the ID is the string under `_id`, the timestamps are
the times under `createdAt` and `updatedAt`. -/
def mapDocument : Document Doc where
  GetID := fun d => match d.lookup "_id" with
    | some (.str id) => id
    | _ => ""
  SetID := fun d id => Doc.set d "_id" (.str id)
  SetCreatedAt := fun now d => Doc.set d "createdAt" (.time now)
  SetUpdatedAt := fun now d => Doc.set d "updatedAt" (.time now)

/-- A stored value of the tree codec: an encoded document tree, or raw text. -/
inductive Blob where
  | tree (d : Doc)
  | text (s : String)

/-- A round-trip faithful codec: it stores the tree itself, and raw text does not decode. -/
def treeCodec : Codec Doc Blob where
  Marshal := fun d => some (.tree d)
  MarshalMap := fun d => some (.tree d)
  Unmarshal := fun b => match b with
    | .tree d => some d
    | .text _ => none
  bytes := .text

mutual
/-- The dynamic value that `bson.Unmarshal` into a `map[string]interface{}` gives back for a
value that was marshalled: a Go `int` comes back as `int32` when it fits 32 bits and as
`int64` when it does not, a `time.Time` as `primitive.DateTime`, every array as
`primitive.A`, and a nested document as a map. -/
def decodedValue : Value → Value
  | .int n => if -2147483648 ≤ n ∧ n ≤ 2147483647 then .int32 n else .int64 n
  | .time t => .datetime t
  | .arr xs => .arrA (decodedList xs)
  | .arrA xs => .arrA (decodedList xs)
  | .obj kvs => .obj (decodedFields kvs)
  | v => v
/-- The elements of an array, decoded. -/
def decodedList : List Value → List Value
  | [] => []
  | x :: xs => decodedValue x :: decodedList xs
/-- The fields of a document, decoded. -/
def decodedFields : List (String × Value) → List (String × Value)
  | [] => []
  | (k, v) :: rest => (k, decodedValue v) :: decodedFields rest
end

/-- The BSON codec on map documents: the stored tree holds each value in the one form BSON
has for it, which is the form `Unmarshal` returns, so an array that was written as
`[]interface{}` is read back as `primitive.A`; raw text does not decode. -/
def bsonCodec : Codec Doc Blob where
  Marshal := fun d => some (.tree (decodedFields d))
  MarshalMap := fun d => some (.tree (decodedFields d))
  Unmarshal := fun b => match b with
    | .tree d => some d
    | .text _ => none
  bytes := .text

/-- A formatter that agrees with `%v` on strings, booleans and integers (the kinds the
evaluations below format). -/
def sprintBasic : Sprint
  | .str s => s
  | .bool b => toString b
  | .int n => toString n
  | .int32 n => toString n
  | .int64 n => toString n
  | _ => ""

/-- Exact addition of finite numbers, standing for `float64` addition where that is exact. -/
def addExact : FloatAdd
  | .fin a, .fin b => .fin (a + b)
  | .nan, _ => .nan
  | _, .nan => .nan
  | .inf a, .inf b => if a = b then .inf a else .nan
  | .inf a, _ => .inf a
  | _, .inf b => .inf b

/-- A regular-expression engine that rejects every pattern (no evaluation below uses
`$regex`). -/
def noRegexp : Regexp := fun _ _ => none

/-- The collection of the index evaluation: `products`, indexing `category`. -/
def productsByCategory : Collection := ⟨"products", ["category"], false⟩

/-- The store after `Insert` of the document with ID `1` and category `A` into the empty
store. -/
def storeAfterInsert : Store Blob :=
  (Insert mapDocument treeCodec sprintBasic "" 0 productsByCategory []
    [("_id", .str "1"), ("category", .str "A")]).2.1

/-- The result of `UpdateByID` on `storeAfterInsert`, setting the category of document `1`
to `B`. -/
def resultOfUpdate : Store Blob × Outcome :=
  UpdateByID treeCodec addExact sprintBasic 0 productsByCategory storeAfterInsert "1"
    [("$set", .obj [("category", .str "B")])]

/-- The collection of the stamping evaluation: `products`, no index, timestamping on. -/
def productsStamped : Collection := ⟨"products", [], true⟩

/-- The collection of the reconciliation evaluation: `products`, indexing `tags`. -/
def productsByTags : Collection := ⟨"products", ["tags"], false⟩

/-- The collection of the array evaluations: `products`, no index, no timestamping. -/
def productsPlain : Collection := ⟨"products", [], false⟩

/-- The store after `Insert`, through the BSON codec, of the document with ID `1` whose
`tags` hold `a` and `b`. -/
def storeWithTags : Store Blob :=
  (Insert mapDocument bsonCodec sprintBasic "" 0 productsPlain []
    [("_id", .str "1"), ("tags", .arr [.str "a", .str "b"])]).2.1

/-! ## Vocabulary of the specification -/

/-- A number in the sense of the specification: an Integer or a Float. -/
def isNumber : Value → Bool
  | .int _ => true
  | .int32 _ => true
  | .int64 _ => true
  | .float _ => true
  | _ => false

/-- The value at dot path `p` of document `d` is present and a number. -/
def holdsNumber (d : Doc) (p : String) : Bool :=
  match getNestedValue (.obj d) (Split p) with
  | some v => isNumber v
  | none => false

/-- A key that can stand as one segment of a dot path: it holds no dot. -/
def dotFree (s : String) : Bool :=
  !s.data.contains '.'

mutual
/-- The value is not an empty Object and holds none, looking through Object members (the
projection does not look into arrays). -/
def noEmptyObject : Value → Bool
  | .obj m => !m.isEmpty && noEmptyObjectFields m
  | _ => true
/-- No field of the map is an empty Object or holds one. -/
def noEmptyObjectFields : List (String × Value) → Bool
  | [] => true
  | (_, v) :: rest => noEmptyObject v && noEmptyObjectFields rest
end

/-- A name that holds no key separator `|`. -/
def barFree (s : String) : Bool :=
  !s.data.contains '|'

/-- The operator names `applyUpdate` has a case for. -/
def knownOperators : List String :=
  ["$set", "$inc", "$unset", "$rename", "$push", "$pull", "$pullAll", "$pop", "$addToSet"]

/-! # Theorems -/

/-! ## Maps and paths: basic facts -/

theorem Doc.lookup_set_self (m : Doc) (k : String) (v : Value) :
    (Doc.set m k v).lookup k = some v := by
  induction m with
  | nil => simp [Doc.set, List.lookup]
  | cons kv rest ih =>
    obtain ⟨k1, v1⟩ := kv
    by_cases h : k1 = k
    · simp [Doc.set, h, List.lookup]
    · have h2 : (k == k1) = false := by simpa using fun e => h e.symm
      simp [Doc.set, h, List.lookup, h2, ih]

theorem Doc.lookup_set_other (m : Doc) (k k2 : String) (v : Value) (hne : k2 ≠ k) :
    (Doc.set m k v).lookup k2 = m.lookup k2 := by
  induction m with
  | nil =>
    have h2 : (k2 == k) = false := by simpa using hne
    simp [Doc.set, List.lookup, h2]
  | cons kv rest ih =>
    obtain ⟨k1, v1⟩ := kv
    by_cases h : k1 = k
    · subst h
      have h2 : (k2 == k1) = false := by simpa using hne
      simp [Doc.set, List.lookup, h2]
    · simp only [Doc.set, h, ↓reduceIte, List.lookup]
      rw [ih]

theorem Doc.set_lookup_same (m : Doc) (k : String) (v : Value) (h : m.lookup k = some v) :
    Doc.set m k v = m := by
  induction m with
  | nil => simp [List.lookup] at h
  | cons kv rest ih =>
    obtain ⟨k1, v1⟩ := kv
    by_cases hk : k1 = k
    · subst hk
      simp [List.lookup] at h
      simp [Doc.set, h]
    · have h2 : (k == k1) = false := by simpa using fun e => hk e.symm
      simp only [List.lookup, h2] at h
      simp [Doc.set, hk, ih h]

theorem splitDots_ne_nil (cs : List Char) : splitDots cs ≠ [] := by
  cases cs with
  | nil => simp [splitDots]
  | cons c cs =>
    simp only [splitDots]
    split
    · simp
    · split <;> simp

theorem Split_ne_nil (s : String) : Split s ≠ [] := by
  simp [Split, splitDots_ne_nil]

@[simp] theorem getNestedValue_nil (v : Value) : getNestedValue v [] = some v := by
  cases v <;> rfl

theorem getNestedValue_obj_cons (m : Doc) (k : String) (ks : List String) :
    getNestedValue (.obj m) (k :: ks) =
      (match m.lookup k with
       | some val => getNestedValue val ks
       | none => none) := by
  rw [getNestedValue]

theorem getNestedValue_cons_some {v w : Value} {k : String} {ks : List String}
    (h : getNestedValue v (k :: ks) = some w) :
    ∃ m val, v = .obj m ∧ m.lookup k = some val ∧ getNestedValue val ks = some w := by
  cases v with
  | obj m =>
    rw [getNestedValue_obj_cons] at h
    cases hl : m.lookup k with
    | none => simp [hl] at h
    | some val =>
      simp only [hl] at h
      exact ⟨m, val, rfl, hl, h⟩
  | _ => simp [getNestedValue] at h
/-! ## Filter evaluator: combinators -/

theorem matchAll_iff (re : Regexp) (d : Doc) (L : List Filter) :
    matchAll re d L = true ↔ ∀ f ∈ L, matchDocument re d f = true := by
  induction L with
  | nil => simp [matchAll]
  | cons f fs ih =>
    rw [matchAll]
    by_cases h : matchDocument re d f = true
    · simp [h, ih]
    · simp [h]

theorem matchAny_iff (re : Regexp) (d : Doc) (L : List Filter) :
    matchAny re d L = true ↔ ∃ f ∈ L, matchDocument re d f = true := by
  induction L with
  | nil => simp [matchAny]
  | cons f fs ih =>
    rw [matchAny]
    by_cases h : matchDocument re d f = true
    · simp [h]
    · simp [h, ih]

/-- C3. Combinator truth table: on a filter that holds only the combinator, `$and` over a
list `L` of sub-filters matches a document iff every member of `L` matches it, `$or` iff at
least one member does (so the empty `$or` matches nothing), and `$nor` iff no member does. -/
theorem matchDocument_combinators (re : Regexp) (d : Doc) (L : List Filter) :
    (matchDocument re d (.mk [("$and", .filters L)]) = true ↔
      ∀ f ∈ L, matchDocument re d f = true) ∧
    (matchDocument re d (.mk [("$or", .filters L)]) = true ↔
      ∃ f ∈ L, matchDocument re d f = true) ∧
    (matchDocument re d (.mk [("$nor", .filters L)]) = true ↔
      ∀ f ∈ L, matchDocument re d f = false) ∧
    matchDocument re d (.mk [("$or", .filters [])]) = false := by
  refine ⟨?_, ?_, ?_, ?_⟩
  · rw [matchDocument, matchEntries]
    simp [matchEntries, matchAll_iff]
  · rw [matchDocument, matchEntries]
    simp [matchAny_iff]
  · rw [matchDocument, matchEntries]
    have h := matchAny_iff re d L
    cases hm : matchAny re d L
    · simp only [hm, Bool.false_eq_true, false_iff, not_exists, not_and] at h
      simpa using fun f hf => Bool.eq_false_iff.mpr (h f hf)
    · obtain ⟨f, hf, hfm⟩ := h.mp hm
      simp only [String.reduceEq, ↓reduceIte, Bool.not_true, Bool.false_eq_true, false_iff,
        not_forall]
      exact ⟨f, hf, by simp [hfm]⟩
  · rw [matchDocument, matchEntries]
    simp [matchAny]

/-! ## Update executor: `$inc` -/

theorem getNestedValue_float_cons (x : F64) (k : String) (ks : List String) :
    getNestedValue (.float x) (k :: ks) = none := by
  simp [getNestedValue]

/-- On a path that resolves to a Float, `incrementFieldKeys` with a Float operand succeeds,
leaves the sum at the path and changes no path that is not a prefix of it. -/
theorem incrementFieldKeys_float (fadd : FloatAdd) (path : String) (x n : F64) :
    ∀ (keys : List String) (m : Doc), keys ≠ [] →
      getNestedValue (.obj m) keys = some (.float x) →
      (incrementFieldKeys fadd path m keys (.float n)).2 = .ok ∧
      getNestedValue (.obj (incrementFieldKeys fadd path m keys (.float n)).1) keys =
        some (.float (fadd x n)) ∧
      ∀ q : List String, ¬ q <+: keys →
        getNestedValue (.obj (incrementFieldKeys fadd path m keys (.float n)).1) q =
          getNestedValue (.obj m) q := by
  intro keys
  induction keys with
  | nil => intro m h; exact absurd rfl h
  | cons k rest ih =>
    intro m _ hget
    obtain ⟨m0, val, hm0, hl, hval⟩ := getNestedValue_cons_some hget
    cases hm0
    cases rest with
    | nil =>
      simp only [getNestedValue_nil, Option.some.injEq] at hval
      subst hval
      simp only [incrementFieldKeys, hl]
      refine ⟨trivial, ?_, ?_⟩
      · rw [getNestedValue_obj_cons, Doc.lookup_set_self]
        simp
      · intro q hq
        cases q with
        | nil => exact absurd List.nil_prefix hq
        | cons k2 q2 =>
          rw [getNestedValue_obj_cons, getNestedValue_obj_cons]
          by_cases hk : k2 = k
          · subst hk
            rw [Doc.lookup_set_self, hl]
            cases q2 with
            | nil => exact absurd (List.prefix_refl _) hq
            | cons k3 q3 => simp [getNestedValue_float_cons]
          · rw [Doc.lookup_set_other _ _ _ _ hk]
    | cons k2 rest2 =>
      obtain ⟨nested, val2, hnested, _, _⟩ := getNestedValue_cons_some hval
      subst hnested
      obtain ⟨h1, h2, h3⟩ := ih nested (by simp) hval
      simp only [incrementFieldKeys, hl]
      refine ⟨h1, ?_, ?_⟩
      · rw [getNestedValue_obj_cons, Doc.lookup_set_self]
        exact h2
      · intro q hq
        cases q with
        | nil => exact absurd List.nil_prefix hq
        | cons k3 q3 =>
          rw [getNestedValue_obj_cons, getNestedValue_obj_cons]
          by_cases hk : k3 = k
          · subst hk
            rw [Doc.lookup_set_self, hl]
            apply h3
            intro hp
            exact hq ((List.prefix_cons_inj k3).mpr hp)
          · rw [Doc.lookup_set_other _ _ _ _ hk]

/-- Unless the path resolves to a Float and the operand is a Float, `incrementFieldKeys`
returns an error and the document it was given. -/
theorem incrementFieldKeys_error (fadd : FloatAdd) (path : String) (n : Value) :
    ∀ (keys : List String) (m : Doc), keys ≠ [] →
      ((∀ x, getNestedValue (.obj m) keys ≠ some (.float x)) ∨ (∀ y, n ≠ .float y)) →
      ∃ e, incrementFieldKeys fadd path m keys n = (m, .error e) := by
  intro keys
  induction keys with
  | nil => intro m h; exact absurd rfl h
  | cons k rest ih =>
    intro m _ hbad
    cases rest with
    | nil =>
      simp only [incrementFieldKeys]
      cases hl : m.lookup k with
      | none => exact ⟨_, rfl⟩
      | some val =>
        cases val with
        | float x =>
          cases n with
          | float y =>
            rcases hbad with h | h
            · exact absurd (by rw [getNestedValue_obj_cons, hl]; simp) (h x)
            · exact absurd rfl (h y)
          | _ => exact ⟨_, rfl⟩
        | _ => exact ⟨_, rfl⟩
    | cons k2 rest2 =>
      simp only [incrementFieldKeys]
      cases hl : m.lookup k with
      | none => exact ⟨_, rfl⟩
      | some val =>
        cases val with
        | obj nested =>
          have hbad2 : (∀ x, getNestedValue (.obj nested) (k2 :: rest2) ≠ some (.float x)) ∨
              (∀ y, n ≠ .float y) := by
            rcases hbad with h | h
            · left
              intro x hx
              apply h x
              rw [getNestedValue_obj_cons, hl]
              exact hx
            · right; exact h
          obtain ⟨e, he⟩ := ih nested (by simp) hbad2
          refine ⟨e, ?_⟩
          simp only [he, Doc.set_lookup_same m k _ hl]
        | _ => exact ⟨_, rfl⟩

/-- An update that holds the single operator `$inc` with a single field is one call of
`incrementField`. -/
theorem applyUpdate_inc_single (fadd : FloatAdd) (d : Doc) (p : String) (n : Value) :
    applyUpdate fadd d [("$inc", .obj [(p, n)])] = incrementField fadd d p n := by
  simp only [applyUpdate, applyOperatorUpdate, forEachField]
  simp only [String.reduceEq, ↓reduceIte]
  rcases h : incrementField fadd d p n with ⟨d2, o⟩
  cases o <;> simp

/-- C7, evaluated. `$inc` rejects Integers: a document whose field `count` holds the
Integer 5 and the Integer operand 1 are both numbers, yet `$inc` returns the error "field
count is not a number" and the field still holds 5; and on the Float 5 the Integer operand 1
is turned down with "invalid increment value". -/
theorem applyUpdate_inc_integer_rejected :
    holdsNumber [("count", .int64 5)] "count" = true ∧ isNumber (.int64 1) = true ∧
    applyUpdate addExact [("count", .int64 5)] [("$inc", .obj [("count", .int64 1)])] =
      ([("count", .int64 5)], .error (.msg "field count is not a number")) ∧
    holdsNumber [("count", .float (.fin 5))] "count" = true ∧
    applyUpdate addExact [("count", .float (.fin 5))] [("$inc", .obj [("count", .int64 1)])] =
      ([("count", .float (.fin 5))], .error (.msg "invalid increment value")) :=
  ⟨by decide, by decide, rfl, by decide, rfl⟩

/-- What `$inc` does on Floats: for every document whose field at path `p` holds a Float `x`
and every Float operand `n`, `applyUpdate` with the single update `$inc` of `p` by `n` succeeds,
afterwards `p` holds the float64 sum of `x` and `n`, and every path that is not a prefix of
`p` resolves as before. -/
theorem applyUpdate_inc_float (fadd : FloatAdd) (d : Doc) (p : String) (x n : F64)
    (h : getNestedValue (.obj d) (Split p) = some (.float x)) :
    (applyUpdate fadd d [("$inc", .obj [(p, .float n)])]).2 = .ok ∧
    getNestedValue (.obj (applyUpdate fadd d [("$inc", .obj [(p, .float n)])]).1) (Split p) =
      some (.float (fadd x n)) ∧
    ∀ q : List String, ¬ q <+: Split p →
      getNestedValue (.obj (applyUpdate fadd d [("$inc", .obj [(p, .float n)])]).1) q =
        getNestedValue (.obj d) q := by
  rw [applyUpdate_inc_single]
  exact incrementFieldKeys_float fadd p x n (Split p) d (Split_ne_nil p) h

theorem applyUpdate_inc_float_witness :
    getNestedValue (.obj [("a", .obj [("count", .float (.fin 5)), ("c", .null)]),
        ("b", .str "z")]) (Split "a.count") = some (.float (.fin 5)) ∧
    (applyUpdate addExact [("a", .obj [("count", .float (.fin 5)), ("c", .null)]),
        ("b", .str "z")] [("$inc", .obj [("a.count", .float (.fin 2))])]).2 = .ok ∧
    getNestedValue (.obj (applyUpdate addExact
        [("a", .obj [("count", .float (.fin 5)), ("c", .null)]), ("b", .str "z")]
        [("$inc", .obj [("a.count", .float (.fin 2))])]).1) (Split "a.count") =
      some (.float (addExact (.fin 5) (.fin 2))) :=
  ⟨rfl,
   (applyUpdate_inc_float addExact [("a", .obj [("count", .float (.fin 5)), ("c", .null)]),
      ("b", .str "z")] "a.count" (.fin 5) (.fin 2) rfl).1,
   (applyUpdate_inc_float addExact [("a", .obj [("count", .float (.fin 5)), ("c", .null)]),
      ("b", .str "z")] "a.count" (.fin 5) (.fin 2) rfl).2.1⟩

/-- C8. `$inc` rejects non-numbers: whenever the value at `p` is absent or not a number, or
the operand `n` is not a number, `applyUpdate` with the single update `$inc` of `p` by `n`
returns an error and leaves the document, hence the value at `p`, unchanged. -/
theorem applyUpdate_inc_rejects (fadd : FloatAdd) (d : Doc) (p : String) (n : Value)
    (h : holdsNumber d p = false ∨ isNumber n = false) :
    ∃ e, applyUpdate fadd d [("$inc", .obj [(p, n)])] = (d, .error e) := by
  rw [applyUpdate_inc_single]
  apply incrementFieldKeys_error fadd p n (Split p) d (Split_ne_nil p)
  rcases h with h | h
  · left
    intro x hx
    simp [holdsNumber, hx, isNumber] at h
  · right
    intro y hy
    simp [hy, isNumber] at h

theorem applyUpdate_inc_rejects_witness :
    holdsNumber [("name", .str "bob")] "name" = false ∧
    ∃ e, applyUpdate addExact [("name", .str "bob")]
      [("$inc", .obj [("name", .float (.fin 1))])] = ([("name", .str "bob")], .error e) :=
  ⟨by decide,
   applyUpdate_inc_rejects addExact [("name", .str "bob")] "name" (.float (.fin 1))
     (Or.inl (by decide))⟩

/-! ## Store: basic facts -/

theorem lookup_filter_other {B : Type} (s : List (String × B)) (k k2 : String) (hne : k2 ≠ k) :
    (s.filter (fun kv => !(kv.1 == k))).lookup k2 = s.lookup k2 := by
  induction s with
  | nil => rfl
  | cons kv rest ih =>
    obtain ⟨k1, v1⟩ := kv
    by_cases h : k1 = k
    · subst h
      have h2 : (k2 == k1) = false := by simpa using hne
      simp [List.filter, List.lookup, h2, ih]
    · have h3 : (k1 == k) = false := by simpa using h
      simp only [List.filter, h3, Bool.not_false, List.lookup]
      rw [ih]

theorem Store.get_set_self {B : Type} (s : Store B) (k : String) (v : B) :
    Store.get (Store.set s k v) k = some v := by
  simp [Store.get, Store.set, List.lookup]

theorem Store.get_set_other {B : Type} (s : Store B) (k k2 : String) (v : B) (hne : k2 ≠ k) :
    Store.get (Store.set s k v) k2 = Store.get s k2 := by
  have h2 : (k2 == k) = false := by simpa using hne
  simp only [Store.get, Store.set, Store.delete, List.lookup, h2]
  exact lookup_filter_other s k k2 hne

/-- A loop of writes leaves a key alone when no write is to that key. -/
theorem foldl_set_get_other {A B : Type} (key : String) (keyOf : A → String) (valOf : A → B)
    (hne : ∀ a, keyOf a ≠ key) (l : List A) (s : Store B) :
    Store.get (l.foldl (fun txn a => Store.set txn (keyOf a) (valOf a)) s) key =
      Store.get s key := by
  induction l generalizing s with
  | nil => rfl
  | cons a rest ih =>
    rw [List.foldl_cons, ih]
    exact Store.get_set_other s (keyOf a) key (valOf a) (fun e => hne a e.symm)

/-- An index key written by `Insert` is never the primary key of the same document. -/
theorem indexKey_ne_primaryKey (name field formatted docID : String) :
    name ++ "|" ++ field ++ "|" ++ formatted ++ "|" ++ docID ≠ name ++ "|" ++ docID := by
  intro h
  have hlen := congrArg String.length h
  simp only [String.length_append] at hlen
  have : "|".length = 1 := by decide
  omega

/-! ## Insert then FindByID -/

/-- C1. Insert then FindByID round-trips.  For a document type whose `SetCreatedAt` keeps
the ID, a codec whose `Unmarshal` returns the decoded form `view x` of whatever `Marshal`
encoded, every collection, store and document `d` with no ID: when `Insert` succeeds, the
document it leaves is `d` with the generated ID set (and then `SetCreatedAt` applied when
the collection stamps), and `FindByID` at that document's ID succeeds and returns its
decoded form. -/
theorem Insert_FindByID_roundtrip {T B : Type} (D : Document T) (cd : Codec T B)
    (fmtV : Sprint) (view : T → Doc) (newID : String) (now : Int) (c : Collection)
    (db : Store B) (d : T)
    (hid : D.GetID d = "")
    (hfaithful : ∀ x b, cd.Marshal x = some b → cd.Unmarshal b = some (view x))
    (hstamp : ∀ t x, D.GetID (D.SetCreatedAt t x) = D.GetID x)
    (hok : (Insert D cd fmtV newID now c db d).2.2 = .ok) :
    (Insert D cd fmtV newID now c db d).1 =
      (if c.Timestamp then D.SetCreatedAt now (D.SetID d newID) else D.SetID d newID) ∧
    FindByID cd c (Insert D cd fmtV newID now c db d).2.1
        (D.GetID (Insert D cd fmtV newID now c db d).1) =
      .ok (view (Insert D cd fmtV newID now c db d).1) := by
  have hidk : D.GetID (if c.Timestamp then D.SetCreatedAt now (D.SetID d newID)
      else D.SetID d newID) = D.GetID (D.SetID d newID) := by
    split
    · exact hstamp _ _
    · rfl
  unfold Insert at hok ⊢
  simp only [hid, ↓reduceIte] at hok ⊢
  cases hm : cd.Marshal (if c.Timestamp then D.SetCreatedAt now (D.SetID d newID)
      else D.SetID d newID) with
  | none => simp [hm] at hok
  | some b =>
    simp only [hm]
    refine ⟨trivial, ?_⟩
    unfold FindByID
    rw [hidk]
    rw [foldl_set_get_other (c.Name ++ "|" ++ D.GetID (D.SetID d newID))
      (fun fv : String × Value => c.Name ++ "|" ++ fv.1 ++ "|" ++ fmtV fv.2 ++ "|" ++
        D.GetID (D.SetID d newID))
      (fun _ => cd.bytes (D.GetID (D.SetID d newID)))
      (fun fv => indexKey_ne_primaryKey c.Name fv.1 (fmtV fv.2) (D.GetID (D.SetID d newID)))]
    rw [Store.get_set_self]
    simp only [hfaithful _ _ hm]

theorem mapDocument_stamp_keeps_id (t : Int) (x : Doc) :
    mapDocument.GetID (mapDocument.SetCreatedAt t x) = mapDocument.GetID x := by
  simp only [mapDocument]
  rw [Doc.lookup_set_other x "createdAt" "_id" (.time t) (by decide)]

theorem Insert_FindByID_roundtrip_witness :
    mapDocument.GetID [("category", .str "A")] = "" ∧
    (Insert mapDocument treeCodec sprintBasic "6707933f58d90649c2cc7e9d" 1000
      ⟨"products", ["category"], true⟩ [] [("category", .str "A")]).2.2 = .ok ∧
    FindByID treeCodec ⟨"products", ["category"], true⟩
      (Insert mapDocument treeCodec sprintBasic "6707933f58d90649c2cc7e9d" 1000
        ⟨"products", ["category"], true⟩ [] [("category", .str "A")]).2.1
      "6707933f58d90649c2cc7e9d" =
    .ok [("category", .str "A"), ("_id", .str "6707933f58d90649c2cc7e9d"),
      ("createdAt", .time 1000)] :=
  ⟨rfl, rfl,
   (Insert_FindByID_roundtrip mapDocument treeCodec sprintBasic id
      "6707933f58d90649c2cc7e9d" 1000 ⟨"products", ["category"], true⟩ []
      [("category", .str "A")] rfl
      (fun x b hb => by cases hb; rfl)
      mapDocument_stamp_keeps_id rfl).2⟩

/-- C5, evaluated. In the collection `products` with the indexable field `category`, insert
the document with ID `1` and category `A`, then update it by ID to category `B`: the update
succeeds and the document reads back with category `B`, yet the index entry for
(`products`, `category`, `A`, `1`) is still in the store and there is none for
(`products`, `category`, `B`, `1`); the update wrote the key `category|B|1` instead. -/
theorem UpdateByID_index_entries_diverge :
    Store.get storeAfterInsert "products|category|A|1" = some (.text "1") ∧
    resultOfUpdate.2 = .ok ∧
    FindByID treeCodec productsByCategory resultOfUpdate.1 "1" =
      .ok [("_id", .str "1"), ("category", .str "B")] ∧
    Store.get resultOfUpdate.1 "products|category|A|1" = some (.text "1") ∧
    Store.get resultOfUpdate.1 "products|category|B|1" = none ∧
    Store.get resultOfUpdate.1 "category|B|1" = some (.text "1") :=
  ⟨rfl, rfl, rfl, rfl, rfl, rfl⟩

/-! ## Filter evaluator: comparison and path resolution, evaluated -/

/-- C2, evaluated. On Integers the ordered comparison does not follow the order: the
document with the Integer price 20 does not match `price > 15` with the Integer operand 15,
it does match `price < 15`, and a Float price 20 does not match `price > 15` either when the
operand is the Integer 15; with Float price and Float operand the clause matches. -/
theorem matchDocument_gt_integer_no_match :
    matchDocument noRegexp [("price", .int64 20)]
      (.mk [("price", .filter (.mk [("$gt", .lit (.int64 15))]))]) = false ∧
    matchDocument noRegexp [("price", .int64 20)]
      (.mk [("price", .filter (.mk [("$lt", .lit (.int64 15))]))]) = true ∧
    matchDocument noRegexp [("price", .float (.fin 20))]
      (.mk [("price", .filter (.mk [("$gt", .lit (.int 15))]))]) = false ∧
    matchDocument noRegexp [("price", .float (.fin 20))]
      (.mk [("price", .filter (.mk [("$gt", .lit (.float (.fin 15)))]))]) = true := by
  decide

/-- C6, evaluated. A String field against a Float operand matches under `$lt` and `$lte`,
and so does an absent field: `compare` answers -1 for every pair of kinds it does not
handle. -/
theorem matchDocument_lt_incompatible_matches :
    compare (.str "bob") (.lit (.float (.fin 5))) = -1 ∧
    matchDocument noRegexp [("name", .str "bob")]
      (.mk [("name", .filter (.mk [("$lt", .lit (.float (.fin 5)))]))]) = true ∧
    matchDocument noRegexp [("name", .str "bob")]
      (.mk [("name", .filter (.mk [("$lte", .lit (.float (.fin 5)))]))]) = true ∧
    matchDocument noRegexp [("name", .str "bob")]
      (.mk [("price", .filter (.mk [("$lt", .lit (.float (.fin 5)))]))]) = true := by
  decide

/-- C4, evaluated. In the document whose field `a` holds the String `x`, the path `a.b`
does not resolve for `getNestedValue`, yet `getFindNestedValue` returns the value of `a`,
and the equality clause on `a.b` with the literal `x` matches. -/
theorem getFindNestedValue_stops_at_non_object :
    getNestedValue (.obj [("a", .str "x")]) (Split "a.b") = none ∧
    getFindNestedValue [("a", .str "x")] (Split "a.b") = .str "x" ∧
    matchDocument noRegexp [("a", .str "x")] (.mk [("a.b", .lit (.str "x"))]) = true :=
  ⟨rfl, rfl, by decide⟩

/-! ## Update executor: `$addToSet`, evaluated -/

/-- On a document in memory, with an Array operand, a second `applyUpdate` with `$addToSet`
panics: on the empty document the first application creates the array holding the operand,
and the second compares that element with the operand by `==`. -/
theorem addToSet_twice_array_operand_panics :
    applyUpdate addExact [] [("$addToSet", .obj [("tags", .arr [.str "x"])])] =
      ([("tags", .arr [.arr [.str "x"]])], .ok) ∧
    applyUpdate addExact [("tags", .arr [.arr [.str "x"]])]
        [("$addToSet", .obj [("tags", .arr [.str "x"])])] =
      ([("tags", .arr [.arr [.str "x"]])], .panic) :=
  ⟨rfl, rfl⟩

/-! ## Scan engine: pagination -/

/-- C10. Pagination: for a result list `R`, a skip `s ≥ 0` and a limit `l ≥ 0`, the list
returned after sorting is `drop s R` when `l = 0` and `take l (drop s R)` otherwise; hence a
skip of at least `length R` yields the empty list, and limit 2 on 5 results with skip 0
yields the first 2 elements of `R` in order. -/
theorem applySkipLimit_spec {A : Type} (options : FindOptions) (R : List A)
    (hs : 0 ≤ options.Skip) (hl : 0 ≤ options.Limit) :
    applySkipLimit options R =
      (if options.Limit = 0 then R.drop options.Skip.toNat
       else (R.drop options.Skip.toNat).take options.Limit.toNat) ∧
    ((R.length : Int) ≤ options.Skip → applySkipLimit options R = []) ∧
    (R.length = 5 → options.Skip = 0 → options.Limit = 2 →
      applySkipLimit options R = R.take 2) := by
  have key : applySkipLimit options R =
      (if options.Limit = 0 then R.drop options.Skip.toNat
       else (R.drop options.Skip.toNat).take options.Limit.toNat) := by
    unfold applySkipLimit
    by_cases h1 : options.Skip > 0 ∧ options.Skip ≥ (R.length : Int)
    · have hd : R.drop options.Skip.toNat = [] := by
        apply List.drop_eq_nil_of_le
        omega
      simp [h1, hd]
    · rw [if_neg h1]
      have hdrop : (if options.Skip > 0 then R.drop options.Skip.toNat else R) =
          R.drop options.Skip.toNat := by
        by_cases h2 : options.Skip > 0
        · simp [h2]
        · have h0 : options.Skip = 0 := by omega
          simp [h0]
      simp only [hdrop]
      by_cases h3 : options.Limit = 0
      · simp [h3]
      · rw [if_neg h3]
        by_cases h4 : options.Limit > 0 ∧
            options.Limit < ((R.drop options.Skip.toNat).length : Int)
        · rw [if_pos h4]
        · rw [if_neg h4]
          symm
          apply List.take_of_length_le
          omega
  refine ⟨key, ?_, ?_⟩
  · intro hlen
    rw [key]
    have hd : R.drop options.Skip.toNat = [] := by
      apply List.drop_eq_nil_of_le
      omega
    simp [hd]
  · intro _ h0 h2
    rw [key]
    simp [h0, h2]

theorem applySkipLimit_spec_witness :
    applySkipLimit ⟨1, 2, [], []⟩ [10, 20, 30, 40, 50] = [20, 30] ∧
    applySkipLimit ⟨0, 2, [], []⟩ [10, 20, 30, 40, 50] = [10, 20] ∧
    applySkipLimit ⟨5, 0, [], []⟩ [10, 20, 30, 40, 50] = ([] : List Nat) := by
  have h1 := (applySkipLimit_spec ⟨1, 2, [], []⟩ [10, 20, 30, 40, 50]
    (by decide) (by decide)).1
  have h2 := (applySkipLimit_spec ⟨0, 2, [], []⟩ [10, 20, 30, 40, 50]
    (by decide) (by decide)).2.2 rfl rfl rfl
  have h3 := (applySkipLimit_spec ⟨5, 0, [], []⟩ [10, 20, 30, 40, 50]
    (by decide) (by decide)).2.1 (by decide)
  exact ⟨h1, h2, h3⟩

/-! ## Scan engine: projection and sort comparator, evaluated -/

/-- C12, evaluated. With the select map that excludes `a` and includes `a.b`, the verdict
for `a.b` itself is "keep", yet the verdict for `a.b.c` is that of `a`, the shortest prefix
with an entry, and the projection of the document whose field `a` holds `b` and `c` removes
`a` with all its members: `a.b` is not kept. -/
theorem removeExcludedFields_parent_exclusion_wins :
    isExcluded "a.b" [("a", false), ("a.b", true)] = false ∧
    isExcluded "a.b.c" [("a", false), ("a.b", true)] = true ∧
    removeExcludedFields [("a", false), ("a.b", true)] ""
      [("a", .obj [("b", .int64 1), ("c", .int64 2)]), ("d", .int64 3)] =
      [("d", .int64 3)] :=
  ⟨by decide, by decide, rfl⟩

/-- C13, evaluated. In ascending order the document without the sort field is ordered
before the document that has it: with the single sort field `f` ascending, `less` is false
from the document holding `f` to the empty document and true the other way round.  In
descending order the document holding `f` comes first. -/
theorem sortLess_missing_first_ascending :
    sortLess [("f", .int64 1)] [] [⟨"f", 1⟩] = some false ∧
    sortLess [] [("f", .int64 1)] [⟨"f", 1⟩] = some true ∧
    sortLess [("f", .int64 1)] [] [⟨"f", -1⟩] = some true ∧
    sortLess [] [("f", .int64 1)] [⟨"f", -1⟩] = some false := by
  decide

/-- C14, evaluated. With the sort list `a` ascending then `b` ascending, two documents with
the same String at `a` and the Integers 1 and 2 at `b` are not ordered: the comparator
returns at `a`, where neither value is less, and never reads `b`. -/
theorem sortLess_equal_first_field_returns :
    sortLess [("a", .str "k"), ("b", .int64 1)] [("a", .str "k"), ("b", .int64 2)]
      [⟨"a", 1⟩, ⟨"b", 1⟩] = some false ∧
    sortLess [("b", .int64 1)] [("b", .int64 2)] [⟨"a", 1⟩, ⟨"b", 1⟩] = some true := by
  decide

/-- C15, evaluated. On a String in one document and an Integer in the other, and on an
Integer and a Float, the comparator panics: the value of the second document is asserted to
have the type of the first. -/
theorem sortLess_mixed_kinds_panics :
    sortLess [("f", .str "s")] [("f", .int64 1)] [⟨"f", 1⟩] = none ∧
    sortLess [("f", .int64 1)] [("f", .str "s")] [⟨"f", 1⟩] = none ∧
    sortLess [("f", .int64 1)] [("f", .float (.fin 1))] [⟨"f", 1⟩] = none ∧
    sortLess [("f", .float (.fin 1))] [("f", .int64 1)] [⟨"f", -1⟩] = none := by
  decide

/-! ## Update executor: `$pull`, evaluated -/

/-- C19, evaluated. With an Array operand, `$pull` on an array that holds an Array panics,
whether or not the element is structurally equal to the operand: elements are compared with
the operand by `==`.  With a String operand the first equal element is removed. -/
theorem pullFromArray_array_operand_panics :
    applyUpdate addExact [("tags", .arr [.arr [.str "x"], .str "y"])]
        [("$pull", .obj [("tags", .arr [.str "x"])])] =
      ([("tags", .arr [.arr [.str "x"], .str "y"])], .panic) ∧
    applyUpdate addExact [("tags", .arr [.arr [.str "z"], .str "y"])]
        [("$pull", .obj [("tags", .arr [.str "x"])])] =
      ([("tags", .arr [.arr [.str "z"], .str "y"])], .panic) ∧
    applyUpdate addExact [("tags", .arr [.str "x", .str "y", .str "x"])]
        [("$pull", .obj [("tags", .str "x")])] =
      ([("tags", .arr [.str "y", .str "x"])], .ok) :=
  ⟨rfl, rfl, rfl⟩

/-! ## Update executor: `$set`, `$unset`, `$rename` -/

theorem getNestedValue_cons_of_not_obj (v : Value) (k : String) (ks : List String)
    (h : ∀ m, v ≠ .obj m) : getNestedValue v (k :: ks) = none := by
  cases v with
  | obj m => exact absurd rfl (h m)
  | _ => simp [getNestedValue]

theorem getNestedValue_append (v : Value) (q r : List String) :
    getNestedValue v (q ++ r) = (getNestedValue v q).bind (fun w => getNestedValue w r) := by
  induction q generalizing v with
  | nil => simp
  | cons k ks ih =>
    cases v with
    | obj m =>
      rw [List.cons_append, getNestedValue_obj_cons, getNestedValue_obj_cons]
      cases m.lookup k with
      | none => rfl
      | some val => exact ih val
    | _ => simp [getNestedValue]

theorem Doc.lookup_delete_self (m : Doc) (k : String) : (Doc.delete m k).lookup k = none := by
  induction m with
  | nil => rfl
  | cons kv rest ih =>
    obtain ⟨k1, v1⟩ := kv
    by_cases h : k1 = k
    · subst h
      simpa [Doc.delete, List.filter] using ih
    · have h3 : (k1 == k) = false := by simpa using h
      have h2 : (k == k1) = false := by simpa using fun e => h e.symm
      simp only [Doc.delete, List.filter, h3, Bool.not_false, List.lookup, h2]
      exact ih

theorem Doc.delete_of_lookup_none (m : Doc) (k : String) (h : m.lookup k = none) :
    Doc.delete m k = m := by
  induction m with
  | nil => rfl
  | cons kv rest ih =>
    obtain ⟨k1, v1⟩ := kv
    by_cases hk : k1 = k
    · subst hk
      simp [List.lookup] at h
    · have h3 : (k1 == k) = false := by simpa using hk
      have h2 : (k == k1) = false := by simpa using fun e => hk e.symm
      simp only [List.lookup, h2] at h
      simp only [Doc.delete, List.filter, h3, Bool.not_false]
      have := ih h
      simp only [Doc.delete] at this
      rw [this]

/-- After `updateNestedFieldKeys`, a path through the assigned path resolves as the rest of
it resolves in the assigned value. -/
theorem updateNestedFieldKeys_get (v : Value) :
    ∀ (keys : List String) (m : Doc) (r : List String), keys ≠ [] →
      getNestedValue (.obj (updateNestedFieldKeys m keys v)) (keys ++ r) =
        getNestedValue v r := by
  intro keys
  induction keys with
  | nil => intro m r h; exact absurd rfl h
  | cons k rest ih =>
    intro m r _
    cases rest with
    | nil =>
      simp only [updateNestedFieldKeys, List.cons_append, List.nil_append]
      rw [getNestedValue_obj_cons, Doc.lookup_set_self]
    | cons k2 rest2 =>
      have hstep : ∀ nested : Doc,
          getNestedValue (.obj (Doc.set m k
            (.obj (updateNestedFieldKeys nested (k2 :: rest2) v)))) (k :: k2 :: rest2 ++ r) =
          getNestedValue v r := by
        intro nested
        rw [List.cons_append, getNestedValue_obj_cons, Doc.lookup_set_self]
        exact ih nested r (by simp)
      cases hl : m.lookup k with
      | none => simp only [updateNestedFieldKeys, hl]; exact hstep []
      | some val =>
        cases val <;> simp only [updateNestedFieldKeys, hl] <;> exact hstep _

/-- `updateNestedFieldKeys` changes no path that leaves the assigned path before its end. -/
theorem updateNestedFieldKeys_frame (v : Value) :
    ∀ (keys : List String) (m : Doc) (q : List String), keys ≠ [] →
      ¬ q <+: keys → ¬ keys <+: q →
      getNestedValue (.obj (updateNestedFieldKeys m keys v)) q = getNestedValue (.obj m) q := by
  intro keys
  induction keys with
  | nil => intro m q h; exact absurd rfl h
  | cons k rest ih =>
    intro m q _ hq hk
    cases q with
    | nil => exact absurd List.nil_prefix hq
    | cons kq rq =>
      by_cases hkq : kq = k
      · subst hkq
        have hq2 : ¬ rq <+: rest := fun h => hq ((List.prefix_cons_inj kq).mpr h)
        have hk2 : ¬ rest <+: rq := fun h => hk ((List.prefix_cons_inj kq).mpr h)
        cases rest with
        | nil => exact absurd List.nil_prefix hk2
        | cons k2 rest2 =>
          have hrq : rq ≠ [] := fun h => hq2 (h ▸ List.nil_prefix)
          obtain ⟨kr, rr, hrr⟩ := List.exists_cons_of_ne_nil hrq
          have hfresh : getNestedValue (.obj (updateNestedFieldKeys [] (k2 :: rest2) v)) rq =
              none := by
            rw [ih [] rq (by simp) hq2 hk2, hrr, getNestedValue_obj_cons]
            rfl
          rw [getNestedValue_obj_cons, getNestedValue_obj_cons]
          cases hl : m.lookup kq with
          | none =>
            simp only [updateNestedFieldKeys, hl]
            rw [Doc.lookup_set_self]
            exact hfresh
          | some val =>
            cases val with
            | obj nested =>
              simp only [updateNestedFieldKeys, hl]
              rw [Doc.lookup_set_self]
              exact ih nested rq (by simp) hq2 hk2
            | _ =>
              simp only [updateNestedFieldKeys, hl]
              rw [Doc.lookup_set_self]
              show getNestedValue (.obj (updateNestedFieldKeys [] (k2 :: rest2) v)) rq = _
              rw [hfresh, hrr]
              simp [getNestedValue]
      · rw [getNestedValue_obj_cons, getNestedValue_obj_cons]
        have hset : ∀ w, (Doc.set m k w).lookup kq = m.lookup kq :=
          fun w => Doc.lookup_set_other m k kq w hkq
        cases rest with
        | nil => simp only [updateNestedFieldKeys, hset]
        | cons k2 rest2 =>
          cases hl : m.lookup k with
          | none => simp only [updateNestedFieldKeys, hl, hset]
          | some val => cases val <;> simp only [updateNestedFieldKeys, hl, hset]

/-- After `deleteNestedFieldKeys` the deleted path does not resolve. -/
theorem deleteNestedFieldKeys_get :
    ∀ (keys : List String) (m : Doc), keys ≠ [] →
      getNestedValue (.obj (deleteNestedFieldKeys m keys)) keys = none := by
  intro keys
  induction keys with
  | nil => intro m h; exact absurd rfl h
  | cons k rest ih =>
    intro m _
    cases rest with
    | nil =>
      simp only [deleteNestedFieldKeys]
      rw [getNestedValue_obj_cons, Doc.lookup_delete_self]
    | cons k2 rest2 =>
      cases hl : m.lookup k with
      | none =>
        simp only [deleteNestedFieldKeys, hl]
        rw [getNestedValue_obj_cons, hl]
      | some val =>
        cases val with
        | obj nested =>
          simp only [deleteNestedFieldKeys, hl]
          rw [getNestedValue_obj_cons, Doc.lookup_set_self]
          exact ih nested (by simp)
        | _ =>
          simp only [deleteNestedFieldKeys, hl]
          rw [getNestedValue_obj_cons, hl]
          simp [getNestedValue]

/-- On a path that does not resolve, `deleteNestedFieldKeys` returns the document it was
given. -/
theorem deleteNestedFieldKeys_absent :
    ∀ (keys : List String) (m : Doc), keys ≠ [] →
      getNestedValue (.obj m) keys = none → deleteNestedFieldKeys m keys = m := by
  intro keys
  induction keys with
  | nil => intro m h; exact absurd rfl h
  | cons k rest ih =>
    intro m _ hnone
    rw [getNestedValue_obj_cons] at hnone
    cases rest with
    | nil =>
      simp only [deleteNestedFieldKeys]
      apply Doc.delete_of_lookup_none
      cases hl : m.lookup k with
      | none => rfl
      | some val => simp [hl] at hnone
    | cons k2 rest2 =>
      cases hl : m.lookup k with
      | none => simp only [deleteNestedFieldKeys, hl]
      | some val =>
        cases val with
        | obj nested =>
          simp only [deleteNestedFieldKeys, hl]
          simp only [hl] at hnone
          rw [ih nested (by simp) hnone]
          exact Doc.set_lookup_same m k _ hl
        | _ => simp only [deleteNestedFieldKeys, hl]

/-- An update that holds the single operator `$set` with a single field is one call of
`updateNestedField`. -/
theorem applyUpdate_set_single (fadd : FloatAdd) (d : Doc) (p : String) (v : Value) :
    applyUpdate fadd d [("$set", .obj [(p, v)])] = (updateNestedField d p v, .ok) := by
  simp [applyUpdate, applyOperatorUpdate, forEachField]

/-- An update that holds the single operator `$unset` with a single field is one call of
`deleteNestedField`. -/
theorem applyUpdate_unset_single (fadd : FloatAdd) (d : Doc) (p : String) (u : Value) :
    applyUpdate fadd d [("$unset", .obj [(p, u)])] = (deleteNestedField d p, .ok) := by
  simp [applyUpdate, applyOperatorUpdate, forEachField]

/-- An update that holds the single operator `$rename` with a single field and a String
operand is one call of `renameField`. -/
theorem applyUpdate_rename_single (fadd : FloatAdd) (d : Doc) (old new : String) :
    applyUpdate fadd d [("$rename", .obj [(old, .str new)])] = renameField d old new := by
  simp only [applyUpdate, applyOperatorUpdate, forEachField]
  simp only [String.reduceEq, ↓reduceIte]
  rcases h : renameField d old new with ⟨d2, o⟩
  cases o <;> simp

/-- C16. `$set` then read back: for every document `d`, dot path `p` and value `v`,
`applyUpdate` with the single update `$set` of `p` to `v` succeeds, afterwards `p` resolves
to exactly `v`, and every proper prefix of `p` resolves to an Object. -/
theorem applyUpdate_set_read_back (fadd : FloatAdd) (d : Doc) (p : String) (v : Value) :
    (applyUpdate fadd d [("$set", .obj [(p, v)])]).2 = .ok ∧
    getNestedValue (.obj (applyUpdate fadd d [("$set", .obj [(p, v)])]).1) (Split p) = some v ∧
    ∀ q r : List String, Split p = q ++ r → r ≠ [] →
      ∃ m, getNestedValue (.obj (applyUpdate fadd d [("$set", .obj [(p, v)])]).1) q =
        some (.obj m) := by
  rw [applyUpdate_set_single]
  have hget : getNestedValue (.obj (updateNestedField d p v)) (Split p) = some v := by
    have h := updateNestedFieldKeys_get v (Split p) d [] (Split_ne_nil p)
    simpa [updateNestedField] using h
  refine ⟨rfl, hget, ?_⟩
  intro q r hqr hr
  simp only at hget ⊢
  rw [hqr, getNestedValue_append] at hget
  cases hq : getNestedValue (.obj (updateNestedField d p v)) q with
  | none => simp [hq] at hget
  | some w =>
    simp only [hq, Option.bind] at hget
    obtain ⟨k, ks, hks⟩ := List.exists_cons_of_ne_nil hr
    rw [hks] at hget
    obtain ⟨m, _, hm, _, _⟩ := getNestedValue_cons_some hget
    exact ⟨m, by rw [hm]⟩

theorem applyUpdate_set_read_back_witness :
    getNestedValue (.obj (applyUpdate addExact [("a", .str "x")]
      [("$set", .obj [("a.b.c", .int64 7)])]).1) (Split "a.b.c") = some (.int64 7) ∧
    ∃ m, getNestedValue (.obj (applyUpdate addExact [("a", .str "x")]
      [("$set", .obj [("a.b.c", .int64 7)])]).1) ["a", "b"] = some (.obj m) :=
  ⟨(applyUpdate_set_read_back addExact [("a", .str "x")] "a.b.c" (.int64 7)).2.1,
   (applyUpdate_set_read_back addExact [("a", .str "x")] "a.b.c" (.int64 7)).2.2
     ["a", "b"] ["c"] (by decide) (by simp)⟩

/-- C17. `$unset` deletes or does nothing: for every document `d`, path `p` and operand,
`applyUpdate` with the single update `$unset` of `p` succeeds; afterwards `p` does not
resolve; and when `p` did not resolve in `d` the document returned is `d` itself. -/
theorem applyUpdate_unset_spec (fadd : FloatAdd) (d : Doc) (p : String) (u : Value) :
    (applyUpdate fadd d [("$unset", .obj [(p, u)])]).2 = .ok ∧
    getNestedValue (.obj (applyUpdate fadd d [("$unset", .obj [(p, u)])]).1) (Split p) = none ∧
    (getNestedValue (.obj d) (Split p) = none →
      (applyUpdate fadd d [("$unset", .obj [(p, u)])]).1 = d) := by
  rw [applyUpdate_unset_single]
  exact ⟨rfl, deleteNestedFieldKeys_get (Split p) d (Split_ne_nil p),
    deleteNestedFieldKeys_absent (Split p) d (Split_ne_nil p)⟩

theorem applyUpdate_unset_spec_witness :
    applyUpdate addExact [("a", .obj [("b", .int64 1), ("c", .int64 2)])]
        [("$unset", .obj [("a.b", .str "")])] =
      ([("a", .obj [("c", .int64 2)])], .ok) ∧
    (applyUpdate addExact [("a", .str "x")] [("$unset", .obj [("a.b.c", .str "")])]).1 =
      [("a", .str "x")] :=
  ⟨rfl, (applyUpdate_unset_spec addExact [("a", .str "x")] "a.b.c" (.str "")).2.2 rfl⟩

/-- C18, as stated, fails when the new path extends the old one: in the document whose
field `a` holds 1, renaming `a` to `a.b` succeeds and `a.b` resolves to 1, yet `a` still
resolves, to the Object that now holds `b`. -/
theorem applyUpdate_rename_into_itself :
    getNestedValue (.obj [("a", .int64 1)]) (Split "a") = some (.int64 1) ∧
    applyUpdate addExact [("a", .int64 1)] [("$rename", .obj [("a", .str "a.b")])] =
      ([("a", .obj [("b", .int64 1)])], .ok) ∧
    getNestedValue (.obj [("a", .obj [("b", .int64 1)])]) (Split "a.b") = some (.int64 1) ∧
    getNestedValue (.obj [("a", .obj [("b", .int64 1)])]) (Split "a") =
      some (.obj [("b", .int64 1)]) :=
  ⟨rfl, rfl, rfl, rfl⟩

/-- C18, amended. `$rename` moves the value: for every document in which path `old`
resolves to a value `v` and every path `new` that does not extend `old` (so is not `old`),
and such that `v` holds nothing at the remaining segments when `old` extends `new`,
`applyUpdate` with the single update `$rename` of `old` to `new` succeeds and afterwards
`new` resolves to `v` and `old` no longer resolves. -/
theorem applyUpdate_rename_moves (fadd : FloatAdd) (d : Doc) (old new : String) (v : Value)
    (hold : getNestedValue (.obj d) (Split old) = some v)
    (hext : ¬ Split old <+: Split new)
    (hrem : ∀ r, Split old = Split new ++ r → getNestedValue v r = none) :
    (applyUpdate fadd d [("$rename", .obj [(old, .str new)])]).2 = .ok ∧
    getNestedValue (.obj (applyUpdate fadd d [("$rename", .obj [(old, .str new)])]).1)
      (Split new) = some v ∧
    getNestedValue (.obj (applyUpdate fadd d [("$rename", .obj [(old, .str new)])]).1)
      (Split old) = none := by
  rw [applyUpdate_rename_single]
  simp only [renameField, hold, updateNestedField, deleteNestedField]
  refine ⟨trivial, ?_, ?_⟩
  · have h := updateNestedFieldKeys_get v (Split new) (deleteNestedFieldKeys d (Split old)) []
      (Split_ne_nil new)
    simpa using h
  · by_cases hpre : Split new <+: Split old
    · obtain ⟨r, hr⟩ := hpre
      rw [← hr, updateNestedFieldKeys_get v (Split new) _ r (Split_ne_nil new)]
      exact hrem r hr.symm
    · rw [updateNestedFieldKeys_frame v (Split new) _ (Split old) (Split_ne_nil new) hext hpre]
      exact deleteNestedFieldKeys_get (Split old) d (Split_ne_nil old)

theorem applyUpdate_rename_moves_witness :
    getNestedValue (.obj [("a", .obj [("b", .int64 1), ("c", .int64 2)])]) (Split "a.b") =
      some (.int64 1) ∧
    getNestedValue (.obj (applyUpdate addExact [("a", .obj [("b", .int64 1), ("c", .int64 2)])]
      [("$rename", .obj [("a.b", .str "x.y")])]).1) (Split "x.y") = some (.int64 1) ∧
    getNestedValue (.obj (applyUpdate addExact [("a", .obj [("b", .int64 1), ("c", .int64 2)])]
      [("$rename", .obj [("a.b", .str "x.y")])]).1) (Split "a.b") = none :=
  ⟨rfl,
   (applyUpdate_rename_moves addExact [("a", .obj [("b", .int64 1), ("c", .int64 2)])]
      "a.b" "x.y" (.int64 1) rfl
      (by rw [show Split "a.b" = ["a", "b"] by decide, show Split "x.y" = ["x", "y"] by decide]
          decide)
      (by intro r h
          rw [show Split "a.b" = ["a", "b"] by decide,
            show Split "x.y" = ["x", "y"] by decide] at h
          simp at h)).2⟩

/-! ## Update executor: `$pop` -/

/-- On a path that resolves to an array, `popFromArrayKeys` succeeds and leaves the array
without its last element (`fromEnd`) or without its first. -/
theorem popFromArrayKeys_array (path : String) (fromEnd : Bool) (A : List Value) :
    ∀ (keys : List String) (m : Doc), keys ≠ [] →
      getNestedValue (.obj m) keys = some (.arr A) →
      (popFromArrayKeys path fromEnd m keys).2 = .ok ∧
      getNestedValue (.obj (popFromArrayKeys path fromEnd m keys).1) keys =
        some (.arr (if fromEnd then A.dropLast else A.drop 1)) := by
  intro keys
  induction keys with
  | nil => intro m h; exact absurd rfl h
  | cons k rest ih =>
    intro m _ hget
    obtain ⟨m0, val, hm0, hl, hval⟩ := getNestedValue_cons_some hget
    cases hm0
    cases rest with
    | nil =>
      simp only [getNestedValue_nil, Option.some.injEq] at hval
      subst hval
      simp only [popFromArrayKeys, hl]
      by_cases hlen : A.length = 0
      · have hA : A = [] := List.length_eq_zero.mp hlen
        subst hA
        simp [getNestedValue_obj_cons, hl]
      · cases fromEnd <;>
          simp [hlen, getNestedValue_obj_cons, Doc.lookup_set_self]
    | cons k2 rest2 =>
      obtain ⟨nested, _, hnested, _, _⟩ := getNestedValue_cons_some hval
      subst hnested
      obtain ⟨h1, h2⟩ := ih nested (by simp) hval
      simp only [popFromArrayKeys, hl]
      refine ⟨h1, ?_⟩
      rw [getNestedValue_obj_cons, Doc.lookup_set_self]
      exact h2

/-- An update that holds the single operator `$pop` with a single field: the direction is
read as a `float64`, 1 pops from the end, -1 from the front, anything else is an error. -/
theorem applyUpdate_pop_single (fadd : FloatAdd) (d : Doc) (p : String) (dir : Value) :
    applyUpdate fadd d [("$pop", .obj [(p, dir)])] =
      (match dir with
       | .float x =>
         if F64.eq x (.fin 1) then popFromArray d p true
         else if F64.eq x (.fin (-1)) then popFromArray d p false
         else (d, .error (.msg "invalid value for $pop operation"))
       | _ => (d, .error (.msg "invalid value for $pop operation"))) := by
  simp only [applyUpdate, applyOperatorUpdate, forEachField]
  simp only [String.reduceEq, ↓reduceIte]
  cases dir with
  | float x =>
    simp only
    by_cases h1 : F64.eq x (.fin 1) = true
    · simp only [h1, ↓reduceIte]
      rcases h : popFromArray d p true with ⟨d2, o⟩
      cases o <;> simp
    · by_cases h2 : F64.eq x (.fin (-1)) = true
      · simp only [h1, h2, ↓reduceIte]
        rcases h : popFromArray d p false with ⟨d2, o⟩
        cases o <;> simp
      · simp [h1, h2]
  | _ => simp

/-- On a document in memory whose field `t` holds the array of 1 and 2, `$pop` with the
Integer direction 1 (and with the Integer -1) returns the error "invalid value for $pop
operation" and the array keeps both elements. -/
theorem applyUpdate_pop_integer_direction_rejected :
    applyUpdate addExact [("t", .arr [.int64 1, .int64 2])]
        [("$pop", .obj [("t", .int64 1)])] =
      ([("t", .arr [.int64 1, .int64 2])],
        .error (.msg "invalid value for $pop operation")) ∧
    applyUpdate addExact [("t", .arr [.int64 1, .int64 2])]
        [("$pop", .obj [("t", .int (-1))])] =
      ([("t", .arr [.int64 1, .int64 2])],
        .error (.msg "invalid value for $pop operation")) :=
  ⟨rfl, rfl⟩

/-- What `$pop` does on a `[]interface{}` array with a Float direction: for every document
whose path `p` holds such an array `A`, `$pop` of `p` with the Float direction 1 succeeds and
leaves at `p` the array `A` without its last element, with the Float direction -1 it
succeeds and leaves `A` without its first element, and with any direction value other than
the Floats 1 and -1 it returns an error and the document it was given. -/
theorem applyUpdate_pop_direction (fadd : FloatAdd) (d : Doc) (p : String) (A : List Value)
    (h : getNestedValue (.obj d) (Split p) = some (.arr A)) :
    ((applyUpdate fadd d [("$pop", .obj [(p, .float (.fin 1))])]).2 = .ok ∧
      getNestedValue (.obj (applyUpdate fadd d [("$pop", .obj [(p, .float (.fin 1))])]).1)
        (Split p) = some (.arr A.dropLast)) ∧
    ((applyUpdate fadd d [("$pop", .obj [(p, .float (.fin (-1)))])]).2 = .ok ∧
      getNestedValue (.obj (applyUpdate fadd d [("$pop", .obj [(p, .float (.fin (-1)))])]).1)
        (Split p) = some (.arr (A.drop 1))) ∧
    ∀ dir : Value, dir ≠ .float (.fin 1) → dir ≠ .float (.fin (-1)) →
      applyUpdate fadd d [("$pop", .obj [(p, dir)])] =
        (d, .error (.msg "invalid value for $pop operation")) := by
  refine ⟨?_, ?_, ?_⟩
  · rw [applyUpdate_pop_single]
    have h1 : F64.eq (.fin 1) (.fin 1) = true := by decide
    simp only [h1, ↓reduceIte]
    simpa using popFromArrayKeys_array p true A (Split p) d (Split_ne_nil p) h
  · rw [applyUpdate_pop_single]
    have h1 : F64.eq (.fin (-1)) (.fin 1) = false := by decide
    have h2 : F64.eq (.fin (-1)) (.fin (-1)) = true := by decide
    simp only [h1, h2, ↓reduceIte]
    simpa using popFromArrayKeys_array p false A (Split p) d (Split_ne_nil p) h
  · intro dir hd1 hd2
    rw [applyUpdate_pop_single]
    cases dir with
    | float x =>
      cases x with
      | fin q =>
        have hq1 : q ≠ 1 := fun e => hd1 (by rw [e])
        have hq2 : q ≠ -1 := fun e => hd2 (by rw [e])
        simp [F64.eq, hq1, hq2]
      | _ => simp [F64.eq]
    | _ => rfl

theorem applyUpdate_pop_direction_witness :
    getNestedValue (.obj [("t", .arr [.int64 1, .int64 2, .int64 3])]) (Split "t") =
      some (.arr [.int64 1, .int64 2, .int64 3]) ∧
    getNestedValue (.obj (applyUpdate addExact [("t", .arr [.int64 1, .int64 2, .int64 3])]
      [("$pop", .obj [("t", .float (.fin 1))])]).1) (Split "t") =
      some (.arr [.int64 1, .int64 2]) ∧
    getNestedValue (.obj (applyUpdate addExact [("t", .arr [.int64 1, .int64 2, .int64 3])]
      [("$pop", .obj [("t", .float (.fin (-1)))])]).1) (Split "t") =
      some (.arr [.int64 2, .int64 3]) :=
  ⟨rfl,
   (applyUpdate_pop_direction addExact [("t", .arr [.int64 1, .int64 2, .int64 3])] "t"
      [.int64 1, .int64 2, .int64 3] rfl).1.2,
   (applyUpdate_pop_direction addExact [("t", .arr [.int64 1, .int64 2, .int64 3])] "t"
      [.int64 1, .int64 2, .int64 3] rfl).2.1.2⟩

/-! ## Paths: splitting and joining -/

theorem splitDots_append_dot (xs ys : List Char) :
    splitDots (xs ++ '.' :: ys) = splitDots xs ++ splitDots ys := by
  induction xs with
  | nil => simp [splitDots]
  | cons c cs ih =>
    by_cases hc : c = '.'
    · simp [splitDots, hc, ih]
    · simp only [List.cons_append, splitDots, hc, ↓reduceIte]
      change (match splitDots (cs ++ '.' :: ys) with
        | [] => [[c]]
        | p :: ps => (c :: p) :: ps) = _
      rw [ih]
      cases hs : splitDots cs with
      | nil => exact absurd hs (splitDots_ne_nil cs)
      | cons p ps => simp

theorem splitDots_of_dotFree (xs : List Char) (h : '.' ∉ xs) : splitDots xs = [xs] := by
  induction xs with
  | nil => rfl
  | cons c cs ih =>
    have hc : c ≠ '.' := fun e => h (by simp [e])
    have hcs : '.' ∉ cs := fun e => h (List.mem_cons_of_mem _ e)
    simp [splitDots, hc, ih hcs]

theorem splitDots_pieces_dotFree (xs : List Char) : ∀ p ∈ splitDots xs, '.' ∉ p := by
  induction xs with
  | nil => simp [splitDots]
  | cons c cs ih =>
    by_cases hc : c = '.'
    · simp only [splitDots, hc, ↓reduceIte, List.mem_cons]
      rintro p (rfl | hp)
      · simp
      · exact ih p hp
    · simp only [splitDots, hc, ↓reduceIte]
      cases hs : splitDots cs with
      | nil => exact absurd hs (splitDots_ne_nil cs)
      | cons q qs =>
        rw [hs] at ih
        simp only [List.mem_cons]
        rintro p (rfl | hp)
        · intro hmem
          rcases List.mem_cons.mp hmem with e | e
          · exact hc e.symm
          · exact ih q (List.mem_cons_self _ _) e
        · exact ih p (List.mem_cons_of_mem _ hp)

theorem dotFree_iff (s : String) : dotFree s = true ↔ '.' ∉ s.data := by
  simp [dotFree]

theorem Split_append_dot (P k : String) : Split (P ++ "." ++ k) = Split P ++ Split k := by
  have h : (P ++ "." ++ k).data = P.data ++ '.' :: k.data := by
    simp [String.data_append]
  simp [Split, h, splitDots_append_dot]

theorem Split_of_dotFree (k : String) (h : dotFree k = true) : Split k = [k] := by
  simp [Split, splitDots_of_dotFree k.data ((dotFree_iff k).mp h)]

theorem Split_pieces_dotFree (s : String) : ∀ p ∈ Split s, dotFree p = true := by
  intro p hp
  simp only [Split, List.mem_map] at hp
  obtain ⟨cs, hcs, rfl⟩ := hp
  exact (dotFree_iff _).mpr (splitDots_pieces_dotFree s.data cs hcs)

theorem Split_Join (parts : List String) (hne : parts ≠ [])
    (h : ∀ p ∈ parts, dotFree p = true) : Split (Join parts) = parts := by
  induction parts with
  | nil => exact absurd rfl hne
  | cons p rest ih =>
    cases rest with
    | nil => simpa [Join] using Split_of_dotFree p (h p (List.mem_cons_self _ _))
    | cons q rest2 =>
      rw [Join, Split_append_dot, Split_of_dotFree p (h p (List.mem_cons_self _ _)),
        ih (by simp) (fun x hx => h x (List.mem_cons_of_mem _ hx))]
      rfl

/-! ## Scan engine: projection by exclusion of one nested path -/

theorem Split_segment_pair (a b : String) (ha : dotFree a = true) (hb : dotFree b = true) :
    Split (a ++ "." ++ b) = [a, b] := by
  rw [Split_append_dot, Split_of_dotFree a ha, Split_of_dotFree b hb]
  rfl

theorem append_dot_ne_empty (P k : String) : P ++ "." ++ k ≠ "" := by
  intro e
  have h := congrArg String.length e
  simp only [String.length_append] at h
  have h1 : ".".length = 1 := by decide
  have h0 : "".length = 0 := by decide
  omega

/-- With the select map that excludes the single path `a.b`, a path is not excluded unless
its segments start with `a`, `b`. -/
theorem isExcluded_single_false (a b path : String) (ha : dotFree a = true)
    (hb : dotFree b = true) (h : ¬ [a, b] <+: Split path) :
    isExcluded path [(a ++ "." ++ b, false)] = false := by
  have hT := Split_segment_pair a b ha hb
  have hlook : ∀ s : String, ¬ [a, b] <+: Split s →
      List.lookup s [(a ++ "." ++ b, false)] = none := by
    intro s hs
    have hne : s ≠ a ++ "." ++ b := by
      intro e
      apply hs
      rw [e, hT]
    have hbeq : (s == a ++ "." ++ b) = false := by simpa using hne
    simp [List.lookup, hbeq]
  have hfind : (List.range' 1 ((Split path).length - 1)).findSome?
      (fun i => List.lookup (Join ((Split path).take i)) [(a ++ "." ++ b, false)]) = none := by
    rw [List.findSome?_eq_none_iff]
    intro i hi
    rw [List.mem_range'_1] at hi
    apply hlook
    intro hpre
    have hne : (Split path).take i ≠ [] := by
      intro e
      rw [List.take_eq_nil_iff] at e
      rcases e with e | e
      · omega
      · exact Split_ne_nil path e
    rw [Split_Join _ hne
      (fun p hp => Split_pieces_dotFree path p (List.mem_of_mem_take hp))] at hpre
    exact h (hpre.trans (List.take_prefix i _))
  unfold isExcluded
  rw [hlook path h, hfind]

theorem isExcluded_single_true (a b : String) :
    isExcluded (a ++ "." ++ b) [(a ++ "." ++ b, false)] = true := by
  simp [isExcluded, List.lookup]

mutual
/-- Below a path whose segments leave `a`, `b`, the projection that excludes `a.b` returns
a map without empty Objects as it is. -/
theorem removeExcludedFields_unchanged (a b : String) (ha : dotFree a = true)
    (hb : dotFree b = true) :
    ∀ (m : List (String × Value)) (P : String), P ≠ "" → noEmptyObjectFields m = true →
      (∀ rest, ¬ [a, b] <+: Split P ++ rest) →
      removeExcludedFields [(a ++ "." ++ b, false)] P m = m
  | [], _, _, _, _ => by simp [removeExcludedFields]
  | (k, v) :: rest, P, hP, hclean, hdiv => by
    have hc : noEmptyObject v = true ∧ noEmptyObjectFields rest = true := by
      simpa [noEmptyObjectFields] using hclean
    have ih := removeExcludedFields_unchanged a b ha hb rest P hP hc.2 hdiv
    have hpath : Split (P ++ "." ++ k) = Split P ++ Split k := Split_append_dot P k
    have hex : isExcluded (P ++ "." ++ k) [(a ++ "." ++ b, false)] = false :=
      isExcluded_single_false a b _ ha hb (by rw [hpath]; exact hdiv _)
    have ihv := removeNested_unchanged a b ha hb v (P ++ "." ++ k) (append_dot_ne_empty P k)
      hc.1 (fun r => by rw [hpath, List.append_assoc]; exact hdiv _)
    rw [removeExcludedFields]
    simp [hP, hex, ihv, ih]
/-- Below a path whose segments leave `a`, `b`, a value without empty Objects stays. -/
theorem removeNested_unchanged (a b : String) (ha : dotFree a = true)
    (hb : dotFree b = true) :
    ∀ (v : Value) (P : String), P ≠ "" → noEmptyObject v = true →
      (∀ rest, ¬ [a, b] <+: Split P ++ rest) →
      removeNested [(a ++ "." ++ b, false)] P v = some v
  | .obj nested, P, hP, hclean, hdiv => by
    have hc : nested ≠ [] ∧ noEmptyObjectFields nested = true := by
      simpa [noEmptyObject] using hclean
    have ih := removeExcludedFields_unchanged a b ha hb nested P hP hc.2 hdiv
    rw [removeNested, ih]
    simp [hc.1]
  | .null, _, _, _, _ => rfl
  | .bool _, _, _, _, _ => rfl
  | .int _, _, _, _, _ => rfl
  | .int32 _, _, _, _, _ => rfl
  | .int64 _, _, _, _, _ => rfl
  | .float _, _, _, _, _ => rfl
  | .str _, _, _, _, _ => rfl
  | .time _, _, _, _, _ => rfl
  | .datetime _, _, _, _, _ => rfl
  | .arr _, _, _, _, _ => rfl
  | .arrA _, _, _, _, _ => rfl
end

theorem Doc.mem_of_lookup (d : Doc) (k : String) (v : Value) (h : d.lookup k = some v) :
    (k, v) ∈ d := by
  induction d with
  | nil => simp [List.lookup] at h
  | cons kv rest ih =>
    obtain ⟨k1, v1⟩ := kv
    by_cases hk : k = k1
    · subst hk
      simp [List.lookup] at h
      simp [h]
    · have h2 : (k == k1) = false := by simpa using hk
      simp only [List.lookup, h2] at h
      exact List.mem_cons_of_mem _ (ih h)

theorem Doc.lookup_none_of_not_key (d : Doc) (k : String) (h : k ∉ d.map Prod.fst) :
    d.lookup k = none := by
  cases hl : d.lookup k with
  | none => rfl
  | some v =>
    exact absurd (List.mem_map.mpr ⟨(k, v), Doc.mem_of_lookup d k v hl, rfl⟩) h

theorem noEmptyObject_of_lookup (d : Doc) (k : String) (v : Value)
    (hclean : noEmptyObjectFields d = true) (h : d.lookup k = some v) :
    noEmptyObject v = true := by
  induction d with
  | nil => simp [List.lookup] at h
  | cons kv rest ih =>
    obtain ⟨k1, v1⟩ := kv
    have hc : noEmptyObject v1 = true ∧ noEmptyObjectFields rest = true := by
      simpa [noEmptyObjectFields] using hclean
    by_cases hk : k = k1
    · subst hk
      simp [List.lookup] at h
      rw [← h]
      exact hc.1
    · have h2 : (k == k1) = false := by simpa using hk
      simp only [List.lookup, h2] at h
      exact ih hc.2 h

/-- Inside the Object `a`, the projection that excludes `a.b` deletes the member `b` and
nothing else, when the member keys hold no dot and no member is or holds an empty Object. -/
theorem removeExcludedFields_inside (a b : String) (ha : dotFree a = true)
    (hb : dotFree b = true) (ha0 : a ≠ "") :
    ∀ m : List (String × Value), noEmptyObjectFields m = true →
      (∀ kv ∈ m, dotFree kv.1 = true) →
      removeExcludedFields [(a ++ "." ++ b, false)] a m = Doc.delete m b := by
  intro m
  induction m with
  | nil => intro _ _; rfl
  | cons kv rest ih =>
    obtain ⟨c, w⟩ := kv
    intro hclean hkeys
    have hc : noEmptyObject w = true ∧ noEmptyObjectFields rest = true := by
      simpa [noEmptyObjectFields] using hclean
    have ihr := ih hc.2 (fun kv hkv => hkeys kv (List.mem_cons_of_mem _ hkv))
    have hcfree : dotFree c = true := hkeys (c, w) (List.mem_cons_self _ _)
    rw [removeExcludedFields]
    simp only [ha0, ↓reduceIte]
    by_cases hcb : c = b
    · subst hcb
      simp [isExcluded_single_true, ihr, Doc.delete, List.filter]
    · have hpath : Split (a ++ "." ++ c) = [a, c] := Split_segment_pair a c ha hcfree
      have hdiv : ∀ r, ¬ [a, b] <+: Split (a ++ "." ++ c) ++ r := by
        intro r hpre
        rw [hpath] at hpre
        simp only [List.cons_append, List.nil_append, List.cons_prefix_cons, true_and] at hpre
        exact hcb hpre.1.symm
      have hex : isExcluded (a ++ "." ++ c) [(a ++ "." ++ b, false)] = false :=
        isExcluded_single_false a b _ ha hb (by simpa using hdiv [])
      have hv := removeNested_unchanged a b ha hb w (a ++ "." ++ c)
        (append_dot_ne_empty a c) hc.1 hdiv
      have hbeq : (c == b) = false := by simpa using hcb
      simp [hex, hv, ihr, Doc.delete, List.filter, hbeq]

/-- At the top level, where the keys are not empty and hold no dot, the projection that
excludes `a.b` excludes no key: each field is kept or dropped as `removeNested` says. -/
theorem removeExcludedFields_top_lookup (a b : String) (ha : dotFree a = true)
    (hb : dotFree b = true) :
    ∀ d : Doc, (d.map Prod.fst).Nodup → (∀ kv ∈ d, kv.1 ≠ "" ∧ dotFree kv.1 = true) →
      ∀ k, (removeExcludedFields [(a ++ "." ++ b, false)] "" d).lookup k =
        (d.lookup k).bind (removeNested [(a ++ "." ++ b, false)] k) := by
  intro d
  induction d with
  | nil => intro _ _ k; rfl
  | cons kv rest ih =>
    obtain ⟨k0, v0⟩ := kv
    intro hnd htop k
    have hnd2 : k0 ∉ rest.map Prod.fst ∧ (rest.map Prod.fst).Nodup := by
      simpa using hnd
    have ihr := ih hnd2.2 (fun kv hkv => htop kv (List.mem_cons_of_mem _ hkv))
    have hk0 := htop (k0, v0) (List.mem_cons_self _ _)
    have hex : isExcluded k0 [(a ++ "." ++ b, false)] = false := by
      apply isExcluded_single_false a b _ ha hb
      rw [Split_of_dotFree k0 hk0.2]
      intro hpre
      have := hpre.length_le
      simp at this
    rw [removeExcludedFields]
    simp only [↓reduceIte, hex, Bool.false_eq_true]
    by_cases hk : k = k0
    · subst hk
      have hrest : rest.lookup k = none := Doc.lookup_none_of_not_key rest k hnd2.1
      cases hn : removeNested [(a ++ "." ++ b, false)] k v0 with
      | none => simp [ihr, hrest, List.lookup, hn]
      | some v2 => simp [List.lookup, hn]
    · have h2 : (k == k0) = false := by simpa using hk
      cases hn : removeNested [(a ++ "." ++ b, false)] k0 v0 with
      | none => simp [ihr, List.lookup, h2]
      | some v2 => simp [ihr, List.lookup, h2]

/-- C11, evaluated. The projection removes Objects that were empty before it ran: with the
select map that excludes `a.b`, the field `e` outside `a` that holds an empty Object is
removed, a member `c` of `a` that holds an empty Object is removed (and `a` with it), and an
`a` that is empty from the start is removed although `b` was not its only member. -/
theorem removeExcludedFields_drops_empty_objects :
    removeExcludedFields [("a.b", false)] ""
        [("a", .obj [("b", .int64 1), ("c", .int64 2)]), ("e", .obj [])] =
      [("a", .obj [("c", .int64 2)])] ∧
    removeExcludedFields [("a.b", false)] ""
        [("a", .obj [("b", .int64 1), ("c", .obj [])]), ("e", .int64 3)] =
      [("e", .int64 3)] ∧
    removeExcludedFields [("a.b", false)] "" [("a", .obj []), ("e", .int64 3)] =
      [("e", .int64 3)] :=
  ⟨rfl, rfl, rfl⟩

/-- What the projection does away from empty Objects: for every
document with distinct top-level keys, none of them empty or holding a dot, with an Object
field `a` whose member keys hold no dot, and in which no field is or holds an empty Object,
`removeExcludedFields` with the select map that excludes `a.b` leaves a document in which
`a.b` is absent, every other member `a.c` and every field outside `a` resolve as before,
and `a` itself is absent exactly when `b` was its only member. -/
theorem removeExcludedFields_single_exclusion (a b : String) (d m : Doc)
    (hb : dotFree b = true)
    (hnd : (d.map Prod.fst).Nodup)
    (htop : ∀ kv ∈ d, kv.1 ≠ "" ∧ dotFree kv.1 = true)
    (hA : d.lookup a = some (.obj m))
    (hmem : ∀ kv ∈ m, dotFree kv.1 = true)
    (hclean : noEmptyObjectFields d = true) :
    getNestedValue (.obj (removeExcludedFields [(a ++ "." ++ b, false)] "" d)) [a, b] = none ∧
    (∀ c, c ≠ b →
      getNestedValue (.obj (removeExcludedFields [(a ++ "." ++ b, false)] "" d)) [a, c] =
        getNestedValue (.obj d) [a, c]) ∧
    (∀ k, k ≠ a →
      (removeExcludedFields [(a ++ "." ++ b, false)] "" d).lookup k = d.lookup k) ∧
    ((removeExcludedFields [(a ++ "." ++ b, false)] "" d).lookup a = none ↔
      ∀ kv ∈ m, kv.1 = b) := by
  have haKey := htop (a, .obj m) (Doc.mem_of_lookup d a _ hA)
  have ha : dotFree a = true := haKey.2
  have ha0 : a ≠ "" := haKey.1
  have hcleanA : noEmptyObject (.obj m) = true := noEmptyObject_of_lookup d a _ hclean hA
  have hcm : m ≠ [] ∧ noEmptyObjectFields m = true := by
    simpa [noEmptyObject] using hcleanA
  have hin := removeExcludedFields_inside a b ha hb ha0 m hcm.2 hmem
  have htopl := removeExcludedFields_top_lookup a b ha hb d hnd htop
  have hdel : ((Doc.delete m b).length = 0 ↔ ∀ kv ∈ m, kv.1 = b) := by
    simp [Doc.delete, List.filter_eq_nil_iff]
  have hlookA : (removeExcludedFields [(a ++ "." ++ b, false)] "" d).lookup a =
      if (Doc.delete m b).length = 0 then none else some (.obj (Doc.delete m b)) := by
    rw [htopl a, hA]
    simp only [Option.bind, removeNested, hin]
  refine ⟨?_, ?_, ?_, ?_⟩
  · rw [getNestedValue_obj_cons, hlookA]
    by_cases he : (Doc.delete m b).length = 0
    · simp [he]
    · simp only [he, ↓reduceIte]
      rw [getNestedValue_obj_cons, Doc.lookup_delete_self]
  · intro c hc
    have hsame : (Doc.delete m b).lookup c = m.lookup c := lookup_filter_other m b c hc
    have hright : getNestedValue (.obj d) [a, c] =
        getNestedValue (.obj (Doc.delete m b)) [c] := by
      rw [getNestedValue_obj_cons, hA]
      show getNestedValue (.obj m) [c] = _
      rw [getNestedValue_obj_cons, getNestedValue_obj_cons, hsame]
    rw [hright, getNestedValue_obj_cons, hlookA]
    by_cases he : (Doc.delete m b).length = 0
    · simp only [he, ↓reduceIte]
      rw [List.length_eq_zero.mp he]
      rfl
    · simp only [he, ↓reduceIte]
  · intro k hk
    rw [htopl k]
    cases hl : d.lookup k with
    | none => rfl
    | some v =>
      have hkKey := htop (k, v) (Doc.mem_of_lookup d k v hl)
      have hv := noEmptyObject_of_lookup d k v hclean hl
      simp only [Option.bind]
      apply removeNested_unchanged a b ha hb v k hkKey.1 hv
      intro r hpre
      rw [Split_of_dotFree k hkKey.2] at hpre
      simp only [List.cons_append, List.nil_append, List.cons_prefix_cons] at hpre
      exact hk hpre.1.symm
  · rw [hlookA, ← hdel]
    by_cases he : (Doc.delete m b).length = 0 <;> simp [he]

theorem removeExcludedFields_single_exclusion_witness :
    getNestedValue (.obj (removeExcludedFields [("a.b", false)] ""
      [("a", .obj [("b", .int64 1), ("c", .int64 2)]), ("e", .str "x")])) ["a", "b"] = none ∧
    getNestedValue (.obj (removeExcludedFields [("a.b", false)] ""
      [("a", .obj [("b", .int64 1), ("c", .int64 2)]), ("e", .str "x")])) ["a", "c"] =
      some (.int64 2) ∧
    (removeExcludedFields [("a.b", false)] ""
      [("a", .obj [("b", .int64 1), ("c", .int64 2)]), ("e", .str "x")]).lookup "e" =
      some (.str "x") :=
  ⟨(removeExcludedFields_single_exclusion "a" "b"
      [("a", .obj [("b", .int64 1), ("c", .int64 2)]), ("e", .str "x")]
      [("b", .int64 1), ("c", .int64 2)] (by decide) (by decide) (by decide) rfl (by decide)
      (by decide)).1,
   (removeExcludedFields_single_exclusion "a" "b"
      [("a", .obj [("b", .int64 1), ("c", .int64 2)]), ("e", .str "x")]
      [("b", .int64 1), ("c", .int64 2)] (by decide) (by decide) (by decide) rfl (by decide)
      (by decide)).2.1 "c" (by decide),
   (removeExcludedFields_single_exclusion "a" "b"
      [("a", .obj [("b", .int64 1), ("c", .int64 2)]), ("e", .str "x")]
      [("b", .int64 1), ("c", .int64 2)] (by decide) (by decide) (by decide) rfl (by decide)
      (by decide)).2.2.1 "e" (by decide)⟩

/-! ## Filter evaluator: `$exists` and `$in`, evaluated -/

/-- C22, evaluated. A present field that holds Null does not count as existing: the
document whose field `f` holds Null does not match the clause with `$exists` true and does
match it with `$exists` false; and on the document whose field `a` holds a String the path
`a.b`, which does not resolve, matches `$exists` true. -/
theorem matchDocument_exists_null_is_absent :
    getNestedValue (.obj [("f", .null)]) (Split "f") = some .null ∧
    matchDocument noRegexp [("f", .null)]
      (.mk [("f", .filter (.mk [("$exists", .lit (.bool true))]))]) = false ∧
    matchDocument noRegexp [("f", .null)]
      (.mk [("f", .filter (.mk [("$exists", .lit (.bool false))]))]) = true ∧
    getNestedValue (.obj [("a", .str "x")]) (Split "a.b") = none ∧
    matchDocument noRegexp [("a", .str "x")]
      (.mk [("a.b", .filter (.mk [("$exists", .lit (.bool true))]))]) = true :=
  ⟨rfl, by decide, by decide, rfl, by decide⟩

/-- C23, evaluated. On the document whose field `a` holds the String `x`, the path `a.b`
has no value, yet the clause with `$in` of the list holding `x` matches; and on the empty
document the absent field `f` matches `$in` of the list holding Null.  In both cases `$nin`
is the negation of `$in`. -/
theorem matchDocument_in_on_unresolved_path :
    getNestedValue (.obj [("a", .str "x")]) (Split "a.b") = none ∧
    matchDocument noRegexp [("a", .str "x")]
      (.mk [("a.b", .filter (.mk [("$in", .lit (.arr [.str "x"]))]))]) = true ∧
    matchDocument noRegexp [("a", .str "x")]
      (.mk [("a.b", .filter (.mk [("$nin", .lit (.arr [.str "x"]))]))]) = false ∧
    getNestedValue (.obj []) (Split "f") = none ∧
    matchDocument noRegexp [] (.mk [("f", .filter (.mk [("$in", .lit (.arr [.null]))]))]) =
      true ∧
    matchDocument noRegexp [] (.mk [("f", .filter (.mk [("$nin", .lit (.arr [.null]))]))]) =
      false :=
  ⟨rfl, by decide, by decide, rfl, by decide, by decide⟩

/-! ## Key space and scans, evaluated -/

/-- C25, evaluated. After `Insert` of the document with ID `1` and category `A` into the
collection `products` that indexes `category`, the scan under the prefix `products|` visits
two records: the index entry `products|category|A|1`, whose value is the text `1` and does
not decode as a document, and the primary record `products|1`. -/
theorem scanRecords_visits_index_entries :
    (scanRecords productsByCategory storeAfterInsert).map Prod.fst =
      ["products|category|A|1", "products|1"] ∧
    startsWith "products|category|A|1" (productsByCategory.Name ++ "|") = true ∧
    Store.get storeAfterInsert "products|category|A|1" = some (.text "1") ∧
    treeCodec.Unmarshal (.text "1") = none ∧
    primaryKey productsByCategory.Name "1" = "products|1" :=
  ⟨by decide, by decide, rfl, rfl, by decide⟩

/-- C26, evaluated. In the collection `products` with timestamping on, `Insert` of a
document persists it with `createdAt`, and `InsertMany` of the same document persists it
without: `insertDoc` never calls `SetCreatedAt`.  The missing ID is generated in both. -/
theorem InsertMany_does_not_stamp :
    FindByID treeCodec productsStamped
        (Insert mapDocument treeCodec sprintBasic "id1" 1000 productsStamped []
          [("category", .str "A")]).2.1 "id1" =
      .ok [("category", .str "A"), ("_id", .str "id1"), ("createdAt", .time 1000)] ∧
    (InsertMany mapDocument treeCodec sprintBasic (fun _ => "id1") productsStamped []
        [[("category", .str "A")]]).2 = .ok ∧
    FindByID treeCodec productsStamped
        (InsertMany mapDocument treeCodec sprintBasic (fun _ => "id1") productsStamped []
          [[("category", .str "A")]]).1 "id1" =
      .ok [("category", .str "A"), ("_id", .str "id1")] :=
  ⟨rfl, rfl, rfl⟩

/-- C27, evaluated. When no stored document matches the filter, `FindOne` returns the nil
document with a nil error: on the store holding the one document with category `A`, the
filter on category `Z` finds nothing, `nativeFindOne` reports `found` false, and `FindOne`
returns no error, where `UpdateOne` on the same filter returns "no document found in
result". -/
theorem FindOne_no_match_returns_nil_nil :
    (nativeFindOne treeCodec noRegexp productsByCategory storeAfterInsert
      (.mk [("category", .lit (.str "Z"))])).found = false ∧
    FindOne treeCodec noRegexp productsByCategory storeAfterInsert
      (.mk [("category", .lit (.str "Z"))]) = (none, .ok) ∧
    (UpdateOne treeCodec noRegexp addExact sprintBasic 0 productsByCategory storeAfterInsert
      (.mk [("category", .lit (.str "Z"))]) [("$set", .obj [("category", .str "B")])]).2 =
      .error (.msg "no document found in result") ∧
    FindOne treeCodec noRegexp productsByCategory storeAfterInsert
      (.mk [("category", .lit (.str "A"))]) =
      (some [("_id", .str "1"), ("category", .str "A")], .ok) :=
  ⟨rfl, rfl, rfl, rfl⟩

/-- C30, evaluated. When a declared indexable field holds an Array before and after the
update, `nativeUpdate` panics at the comparison of the two values and calls neither
`removeIndexEntry` nor `addIndexEntry`: on the document with ID `1` and the tags holding
`x`, in the collection that indexes `tags`, the update that sets `price` panics and the
store stays as it was. -/
theorem nativeUpdate_array_index_value_panics :
    UpdateByID treeCodec addExact sprintBasic 0 productsByTags
        (Insert mapDocument treeCodec sprintBasic "" 0 productsByTags []
          [("_id", .str "1"), ("tags", .arr [.str "x"])]).2.1
        "1" [("$set", .obj [("price", .float (.fin 1))])] =
      ((Insert mapDocument treeCodec sprintBasic "" 0 productsByTags []
          [("_id", .str "1"), ("tags", .arr [.str "x"])]).2.1, .panic) ∧
    indexChanged [("tags", .arr [.str "x"])] "tags" (.arr [.str "x"]) = none ∧
    indexChanged [("category", .str "A")] "category" (.str "A") = some false ∧
    indexChanged [("category", .str "B")] "category" (.str "A") = some true ∧
    indexChanged [] "category" (.str "A") = some true :=
  ⟨rfl, rfl, rfl, rfl, rfl⟩

/-! ## Key space: the primary key -/

/-- C24, as stated, fails when a collection name or an ID holds the separator: the
collection `a` with the ID `b|c` and the collection `a|b` with the ID `c` have the same
primary key. -/
theorem primaryKey_collision :
    primaryKey "a" "b|c" = primaryKey "a|b" "c" ∧ "a" ≠ "a|b" ∧ "b|c" ≠ "c" := by
  decide

theorem bar_split_unique (xs ys xs2 ys2 : List Char) (h1 : '|' ∉ xs) (h2 : '|' ∉ xs2)
    (h : xs ++ '|' :: ys = xs2 ++ '|' :: ys2) : xs = xs2 ∧ ys = ys2 := by
  induction xs generalizing xs2 with
  | nil =>
    cases xs2 with
    | nil => simpa using h
    | cons c cs =>
      simp only [List.nil_append, List.cons_append, List.cons.injEq] at h
      exact absurd (by simp [← h.1]) h2
  | cons c cs ih =>
    cases xs2 with
    | nil =>
      simp only [List.nil_append, List.cons_append, List.cons.injEq] at h
      exact absurd (by simp [h.1]) h1
    | cons c2 cs2 =>
      simp only [List.cons_append, List.cons.injEq] at h
      have hc : '|' ∉ cs := fun e => h1 (List.mem_cons_of_mem _ e)
      have hc2 : '|' ∉ cs2 := fun e => h2 (List.mem_cons_of_mem _ e)
      obtain ⟨e1, e2⟩ := ih cs2 hc hc2 h.2
      exact ⟨by rw [h.1, e1], e2⟩

/-- C24, amended. The primary-key encoding is injective on collection names without the
separator: for all collection names `c1`, `c2` that hold no `|` and all document IDs `i1`,
`i2`, if the primary keys of (`c1`, `i1`) and (`c2`, `i2`) are equal then `c1 = c2` and
`i1 = i2`. -/
theorem primaryKey_injective (c1 c2 i1 i2 : String) (h1 : barFree c1 = true)
    (h2 : barFree c2 = true) (h : primaryKey c1 i1 = primaryKey c2 i2) :
    c1 = c2 ∧ i1 = i2 := by
  have hd := congrArg String.data h
  simp only [primaryKey, String.data_append] at hd
  rw [List.append_assoc, List.append_assoc] at hd
  have := bar_split_unique c1.data i1.data c2.data i2.data
    (by simpa [barFree] using h1) (by simpa [barFree] using h2) (by simpa using hd)
  exact ⟨String.ext this.1, String.ext this.2⟩

theorem primaryKey_injective_witness :
    primaryKey "products" "1|2" = primaryKey "products" "1|2" ∧
    ("products" = "products" ∧ "1|2" = "1|2") :=
  ⟨rfl, primaryKey_injective "products" "products" "1|2" "1|2" (by decide) (by decide) rfl⟩

/-! ## Update executor: failure of `applyUpdate` -/

/-- C28. A failed single-document update writes nothing: whenever `applyUpdate` returns the
error `e` on the document `doc`, `nativeUpdate` returns `e` with the transaction as it was
given (no `Set` and no `Delete`), `UpdateByID` on a store whose record under the primary key
decodes to `doc` returns the store unchanged with `e`, and so does `UpdateOne` when the
first match is `doc`. -/
theorem nativeUpdate_failed_update_writes_nothing {T B : Type} (cd : Codec T B)
    (fadd : FloatAdd) (fmtV : Sprint) (now : Int) (c : Collection) (txn : Store B) (doc : Doc)
    (docID : String) (update : Update) (e : Error)
    (h : (applyUpdate fadd doc update).2 = .error e) :
    nativeUpdate cd fadd fmtV now c txn doc docID update =
      (txn, (applyUpdate fadd doc update).1, .error e) ∧
    (∀ val, Store.get txn (c.Name ++ "|" ++ docID) = some val → cd.Unmarshal val = some doc →
      UpdateByID cd fadd fmtV now c txn docID update = (txn, .error e)) ∧
    (∀ (re : Regexp) (filter : Filter),
      nativeFindOne cd re c txn filter = ⟨some doc, true⟩ →
      doc.lookup "_id" = some (.str docID) →
      UpdateOne cd re fadd fmtV now c txn filter update = (txn, .error e)) := by
  have hn : nativeUpdate cd fadd fmtV now c txn doc docID update =
      (txn, (applyUpdate fadd doc update).1, .error e) := by
    unfold nativeUpdate
    rcases hr : applyUpdate fadd doc update with ⟨d1, o⟩
    rw [hr] at h
    simp only at h
    subst h
    rfl
  refine ⟨hn, ?_, ?_⟩
  · intro val hget hdec
    unfold UpdateByID
    rw [hget]
    simp only [hdec, hn]
  · intro re filter hfind hid
    unfold UpdateOne
    rw [hfind]
    simp only [hid, hn]

theorem nativeUpdate_failed_update_writes_nothing_witness :
    (applyUpdate addExact [("_id", .str "1"), ("category", .str "A")]
      [("$inc", .obj [("category", .float (.fin 1))])]).2 =
      .error (.msg "field category is not a number") ∧
    UpdateByID treeCodec addExact sprintBasic 0 productsByCategory storeAfterInsert "1"
      [("$inc", .obj [("category", .float (.fin 1))])] =
      (storeAfterInsert, .error (.msg "field category is not a number")) :=
  ⟨rfl,
   (nativeUpdate_failed_update_writes_nothing treeCodec addExact sprintBasic 0
      productsByCategory storeAfterInsert [("_id", .str "1"), ("category", .str "A")] "1"
      [("$inc", .obj [("category", .float (.fin 1))])]
      (.msg "field category is not a number") rfl).2.1 _ rfl rfl⟩

/-! ## Update executor: unknown operators -/

/-- C29, as stated, fails when the update holds two faulty operators: the error returned is
that of the operator visited first.  With `$set` of a non-object before the unknown `$foo`
the message is "invalid $set operation", and with the unknown `$foo` before the unknown
`$bar` the message names `$foo` only. -/
theorem applyUpdate_unknown_operator_not_named :
    applyUpdate addExact [] [("$set", .str "bad"), ("$foo", .null)] =
      ([], .error (.msg "invalid $set operation")) ∧
    applyUpdate addExact [] [("$foo", .null), ("$bar", .null)] =
      ([], .error (.msg "unsupported update operator: $foo")) :=
  ⟨rfl, rfl⟩

theorem applyOperatorUpdate_unknown (fadd : FloatAdd) (doc : Doc) (op : String)
    (fields : Value) (hop : op ∉ knownOperators) :
    applyOperatorUpdate fadd doc op fields =
      (doc, .error (.msg ("unsupported update operator: " ++ op))) := by
  simp only [knownOperators, List.mem_cons, List.mem_singleton, List.not_mem_nil, or_false,
    not_or] at hop
  obtain ⟨h1, h2, h3, h4, h5, h6, h7, h8, h9⟩ := hop
  unfold applyOperatorUpdate
  simp only [h1, h2, h3, h4, h5, h6, h7, h8, h9, ↓reduceIte]

theorem applyUpdate_append (fadd : FloatAdd) (u1 u2 : Update) : ∀ doc : Doc,
    applyUpdate fadd doc (u1 ++ u2) =
      (match applyUpdate fadd doc u1 with
       | (d, .ok) => applyUpdate fadd d u2
       | r => r) := by
  induction u1 with
  | nil => intro doc; rfl
  | cons x rest ih =>
    intro doc
    obtain ⟨op, fields⟩ := x
    simp only [List.cons_append, applyUpdate]
    rcases hr : applyOperatorUpdate fadd doc op fields with ⟨d1, o⟩
    cases o with
    | ok => simp only; exact ih d1
    | error e => rfl
    | panic => rfl

theorem applyUpdate_unknown_not_ok (fadd : FloatAdd) (op : String)
    (hop : op ∉ knownOperators) : ∀ (update : Update) (doc : Doc),
    (∃ fields, (op, fields) ∈ update) → (applyUpdate fadd doc update).2 ≠ .ok := by
  intro update
  induction update with
  | nil => intro doc h; simp at h
  | cons x rest ih =>
    intro doc h
    obtain ⟨op2, fields2⟩ := x
    obtain ⟨fields, hmem⟩ := h
    simp only [applyUpdate]
    rcases List.mem_cons.mp hmem with heq | hrest
    · simp only [Prod.mk.injEq] at heq
      obtain ⟨e1, e2⟩ := heq
      subst e1 e2
      rw [applyOperatorUpdate_unknown fadd doc op fields hop]
      simp
    · rcases hr : applyOperatorUpdate fadd doc op2 fields2 with ⟨d1, o⟩
      cases o with
      | ok => simp only; exact ih d1 ⟨fields, hrest⟩
      | error e => simp
      | panic => simp

/-- C29, amended. Unknown update operators are rejected, and by name when no operator
visited earlier fails: for every operator name `op` outside the nine known ones, every
update that holds `op` makes `applyUpdate` fail, and when the operators before `op` succeed
the error is "unsupported update operator: " followed by `op`, returned with the document as
those operators left it. -/
theorem applyUpdate_unknown_operator (fadd : FloatAdd) (doc : Doc) (op : String)
    (hop : op ∉ knownOperators) :
    (∀ update : Update, (∃ fields, (op, fields) ∈ update) →
      (applyUpdate fadd doc update).2 ≠ .ok) ∧
    (∀ (before after : Update) (fields : Value), (applyUpdate fadd doc before).2 = .ok →
      applyUpdate fadd doc (before ++ (op, fields) :: after) =
        ((applyUpdate fadd doc before).1,
          .error (.msg ("unsupported update operator: " ++ op)))) := by
  refine ⟨fun update h => applyUpdate_unknown_not_ok fadd op hop update doc h, ?_⟩
  intro before after fields hok
  rw [applyUpdate_append]
  rcases hr : applyUpdate fadd doc before with ⟨d1, o⟩
  rw [hr] at hok
  simp only at hok
  subst hok
  simp only [applyUpdate]
  rw [applyOperatorUpdate_unknown fadd d1 op fields hop]

theorem applyUpdate_unknown_operator_witness :
    "$foo" ∉ knownOperators ∧
    applyUpdate addExact [("a", .int64 1)]
        ([("$set", .obj [("b", .int64 2)])] ++ ("$foo", .null) :: [("$bar", .null)]) =
      ((applyUpdate addExact [("a", .int64 1)] [("$set", .obj [("b", .int64 2)])]).1,
        .error (.msg ("unsupported update operator: " ++ "$foo"))) :=
  ⟨by decide,
   (applyUpdate_unknown_operator addExact [("a", .int64 1)] "$foo" (by decide)).2
     [("$set", .obj [("b", .int64 2)])] [("$bar", .null)] .null rfl⟩

/-! ## Update executor: `$pop` on an empty or absent array -/

/-- C21, as stated, fails when a parent Object along the path is missing: on the document
whose field `a` holds a String, and on the empty document, `$pop` of `a.b` with the Float
direction 1 (and -1) returns the error "field a.b not found"; the document is unchanged. -/
theorem applyUpdate_pop_missing_parent_errors :
    applyUpdate addExact [("a", .str "x")] [("$pop", .obj [("a.b", .float (.fin 1))])] =
      ([("a", .str "x")], .error (.msg "field a.b not found")) ∧
    applyUpdate addExact [] [("$pop", .obj [("a.b", .float (.fin 1))])] =
      ([], .error (.msg "field a.b not found")) ∧
    applyUpdate addExact [] [("$pop", .obj [("a.b", .float (.fin (-1)))])] =
      ([], .error (.msg "field a.b not found")) :=
  ⟨rfl, rfl, rfl⟩

theorem popFromArrayKeys_noop (path : String) (fromEnd : Bool) :
    ∀ (keys : List String) (m : Doc),
      (∃ parent, getNestedValue (.obj m) keys.dropLast = some (.obj parent)) →
      (∀ A, getNestedValue (.obj m) keys = some (.arr A) → A = []) →
      keys ≠ [] → popFromArrayKeys path fromEnd m keys = (m, .ok) := by
  intro keys
  induction keys with
  | nil => intro m _ _ h; exact absurd rfl h
  | cons k rest ih =>
    intro m hpar harr _
    cases rest with
    | nil =>
      simp only [popFromArrayKeys]
      cases hl : m.lookup k with
      | none => rfl
      | some v =>
        cases v with
        | arr A =>
          have hA : A = [] := harr A (by rw [getNestedValue_obj_cons, hl]; rfl)
          subst hA
          rfl
        | _ => rfl
    | cons k2 rest2 =>
      obtain ⟨parent, hparent⟩ := hpar
      have hd : (k :: k2 :: rest2).dropLast = k :: (k2 :: rest2).dropLast := rfl
      rw [hd] at hparent
      obtain ⟨m0, val, hm0, hl, hval⟩ := getNestedValue_cons_some hparent
      cases hm0
      have hobj : ∃ nested, val = .obj nested := by
        cases hrest : (k2 :: rest2).dropLast with
        | nil =>
          rw [hrest] at hval
          simp only [getNestedValue_nil, Option.some.injEq] at hval
          exact ⟨parent, hval⟩
        | cons a as =>
          rw [hrest] at hval
          obtain ⟨nested, _, hn, _, _⟩ := getNestedValue_cons_some hval
          exact ⟨nested, hn⟩
      obtain ⟨nested, hn⟩ := hobj
      subst hn
      have hrec := ih nested ⟨parent, hval⟩
        (fun A hA => harr A (by rw [getNestedValue_obj_cons, hl]; exact hA)) (by simp)
      simp only [popFromArrayKeys, hl, hrec]
      rw [Doc.set_lookup_same m k _ hl]

theorem popFromArrayKeys_missing_parent (path : String) (fromEnd : Bool) :
    ∀ (keys : List String) (m : Doc),
      (∀ parent, getNestedValue (.obj m) keys.dropLast ≠ some (.obj parent)) →
      keys ≠ [] →
      popFromArrayKeys path fromEnd m keys =
        (m, .error (.msg ("field " ++ path ++ " not found"))) := by
  intro keys
  induction keys with
  | nil => intro m _ h; exact absurd rfl h
  | cons k rest ih =>
    intro m hpar _
    cases rest with
    | nil => exact absurd rfl (hpar m)
    | cons k2 rest2 =>
      have hd : (k :: k2 :: rest2).dropLast = k :: (k2 :: rest2).dropLast := rfl
      rw [hd] at hpar
      simp only [popFromArrayKeys]
      cases hl : m.lookup k with
      | none => rfl
      | some v =>
        cases v with
        | obj nested =>
          have hrec := ih nested
            (fun parent hp => hpar parent (by rw [getNestedValue_obj_cons, hl]; exact hp))
            (by simp)
          simp only [hrec]
          rw [Doc.set_lookup_same m k _ hl]
        | _ => rfl

/-- C21, amended. `$pop` on an empty or absent array whose parent exists is a no-op, and a
missing parent is an error: for the Float directions 1 and -1, when the path before the
last segment of `p` resolves to an Object and `p` holds no array other than the empty one,
`$pop` of `p` succeeds and returns the document it was given; when the path before the last
segment does not resolve to an Object it returns the error "field p not found", again with
the document it was given. -/
theorem applyUpdate_pop_noop (fadd : FloatAdd) (d : Doc) (p : String) (x : F64)
    (hx : x = .fin 1 ∨ x = .fin (-1)) :
    ((∃ parent, getNestedValue (.obj d) (Split p).dropLast = some (.obj parent)) →
      (∀ A, getNestedValue (.obj d) (Split p) = some (.arr A) → A = []) →
      applyUpdate fadd d [("$pop", .obj [(p, .float x)])] = (d, .ok)) ∧
    ((∀ parent, getNestedValue (.obj d) (Split p).dropLast ≠ some (.obj parent)) →
      applyUpdate fadd d [("$pop", .obj [(p, .float x)])] =
        (d, .error (.msg ("field " ++ p ++ " not found")))) := by
  have h11 : F64.eq (.fin 1) (.fin 1) = true := by decide
  have h21 : F64.eq (.fin (-1)) (.fin 1) = false := by decide
  have h22 : F64.eq (.fin (-1)) (.fin (-1)) = true := by decide
  refine ⟨?_, ?_⟩
  · intro hpar harr
    rw [applyUpdate_pop_single]
    rcases hx with hx | hx <;> subst hx
    · simp only [h11, ↓reduceIte, popFromArray]
      exact popFromArrayKeys_noop p true (Split p) d hpar harr (Split_ne_nil p)
    · simp only [h21, h22, ↓reduceIte, popFromArray]
      exact popFromArrayKeys_noop p false (Split p) d hpar harr (Split_ne_nil p)
  · intro hpar
    rw [applyUpdate_pop_single]
    rcases hx with hx | hx <;> subst hx
    · simp only [h11, ↓reduceIte, popFromArray]
      exact popFromArrayKeys_missing_parent p true (Split p) d hpar (Split_ne_nil p)
    · simp only [h21, h22, ↓reduceIte, popFromArray]
      exact popFromArrayKeys_missing_parent p false (Split p) d hpar (Split_ne_nil p)

theorem applyUpdate_pop_noop_witness :
    applyUpdate addExact [("a", .obj [("t", .arr [])])]
        [("$pop", .obj [("a.t", .float (.fin 1))])] = ([("a", .obj [("t", .arr [])])], .ok) ∧
    applyUpdate addExact [("a", .obj [("t", .arr [])])]
        [("$pop", .obj [("a.u", .float (.fin (-1)))])] =
      ([("a", .obj [("t", .arr [])])], .ok) ∧
    applyUpdate addExact [("a", .obj [("t", .arr [])])]
        [("$pop", .obj [("b.t", .float (.fin 1))])] =
      ([("a", .obj [("t", .arr [])])], .error (.msg ("field " ++ "b.t" ++ " not found"))) :=
  ⟨(applyUpdate_pop_noop addExact [("a", .obj [("t", .arr [])])] "a.t" (.fin 1)
      (Or.inl rfl)).1 ⟨[("t", .arr [])], rfl⟩
      (fun A h => (Value.arr.inj (Option.some.inj
        (show some (Value.arr []) = some (Value.arr A) from h))).symm),
   (applyUpdate_pop_noop addExact [("a", .obj [("t", .arr [])])] "a.u" (.fin (-1))
      (Or.inr rfl)).1 ⟨[("t", .arr [])], rfl⟩
      (fun A h => Option.noConfusion (show (none : Option Value) = some (Value.arr A) from h)),
   (applyUpdate_pop_noop addExact [("a", .obj [("t", .arr [])])] "b.t" (.fin 1)
      (Or.inl rfl)).2
      (fun parent h =>
        Option.noConfusion (show (none : Option Value) = some (Value.obj parent) from h))⟩

/-! ## Filter evaluator: several entries and several operators, evaluated -/

/-- C31, evaluated. A matching `$or` entry visited before a non-matching field clause makes
the filter match: on the document whose `a` holds 1, the filter with `$or` of `a` equal to 1
and with `b` equal to 2 matches when `$or` is visited first and does not when `b` is visited
first, although the single-entry filter on `b` does not match; the same with a `$nor` entry
whose sub-filter does not match. -/
theorem matchDocument_or_entry_ends_the_loop :
    matchDocument noRegexp [("a", .int64 1)]
      (.mk [("$or", .filters [.mk [("a", .lit (.int64 1))]])]) = true ∧
    matchDocument noRegexp [("a", .int64 1)] (.mk [("b", .lit (.int64 2))]) = false ∧
    matchDocument noRegexp [("a", .int64 1)]
      (.mk [("$or", .filters [.mk [("a", .lit (.int64 1))]]), ("b", .lit (.int64 2))]) =
      true ∧
    matchDocument noRegexp [("a", .int64 1)]
      (.mk [("b", .lit (.int64 2)), ("$or", .filters [.mk [("a", .lit (.int64 1))]])]) =
      false ∧
    matchDocument noRegexp [("a", .int64 1)]
      (.mk [("$nor", .filters [.mk [("a", .lit (.int64 7))]]), ("b", .lit (.int64 2))]) =
      true ∧
    matchDocument noRegexp [("a", .int64 1)]
      (.mk [("b", .lit (.int64 2)), ("$nor", .filters [.mk [("a", .lit (.int64 7))]])]) =
      false := by
  decide

/-- C32, evaluated. Of an operator object with several operators only the one visited first
is applied: on the document whose `n` holds the Float 5, the range with `$gt` 1 and `$lt` 3
matches when `$gt` is visited first and does not when `$lt` is visited first, although the
clause with `$lt` 3 alone does not match. -/
theorem applyOperator_first_operator_returns :
    matchDocument noRegexp [("n", .float (.fin 5))]
      (.mk [("n", .filter (.mk [("$gt", .lit (.float (.fin 1)))]))]) = true ∧
    matchDocument noRegexp [("n", .float (.fin 5))]
      (.mk [("n", .filter (.mk [("$lt", .lit (.float (.fin 3)))]))]) = false ∧
    matchDocument noRegexp [("n", .float (.fin 5))]
      (.mk [("n", .filter (.mk [("$gt", .lit (.float (.fin 1))),
        ("$lt", .lit (.float (.fin 3)))]))]) = true ∧
    matchDocument noRegexp [("n", .float (.fin 5))]
      (.mk [("n", .filter (.mk [("$lt", .lit (.float (.fin 3))),
        ("$gt", .lit (.float (.fin 1)))]))]) = false := by
  decide

/-! ## Delete by ID -/

theorem Store.get_delete_self {B : Type} (s : Store B) (k : String) :
    Store.get (Store.delete s k) k = none := by
  induction s with
  | nil => rfl
  | cons kv rest ih =>
    obtain ⟨k1, v1⟩ := kv
    simp only [Store.get, Store.delete] at ih ⊢
    by_cases h : k1 = k
    · subst h
      simpa [List.filter] using ih
    · have h1 : (k1 == k) = false := by simpa using h
      have h2 : (k == k1) = false := by simpa using fun e : k = k1 => h e.symm
      simp only [List.filter, h1, Bool.not_false, List.lookup, h2]
      exact ih

theorem Store.get_delete_other {B : Type} (s : Store B) (k k2 : String) (hne : k2 ≠ k) :
    Store.get (Store.delete s k) k2 = Store.get s k2 :=
  lookup_filter_other s k k2 hne

/-- C33. `DeleteByID` touches only the primary record: when the primary key of `docID` is
present, `DeleteByID` succeeds and returns the store without that key, every other key
keeping its value; when the primary key is absent it returns the key-not-found error and
the store it was given. -/
theorem DeleteByID_removes_only_primary_record {B : Type} (c : Collection) (db : Store B)
    (docID : String) :
    (∀ val, Store.get db (primaryKey c.Name docID) = some val →
      DeleteByID c db docID = (Store.delete db (primaryKey c.Name docID), .ok) ∧
      Store.get (DeleteByID c db docID).1 (primaryKey c.Name docID) = none ∧
      ∀ key, key ≠ primaryKey c.Name docID →
        Store.get (DeleteByID c db docID).1 key = Store.get db key) ∧
    (Store.get db (primaryKey c.Name docID) = none →
      DeleteByID c db docID = (db, .error .keyNotFound)) := by
  refine ⟨?_, ?_⟩
  · intro val hget
    have hd : DeleteByID c db docID = (Store.delete db (primaryKey c.Name docID), .ok) := by
      simp only [DeleteByID, hget]
    rw [hd]
    exact ⟨rfl, Store.get_delete_self db _, fun key hne => Store.get_delete_other db _ key hne⟩
  · intro hget
    simp only [DeleteByID, hget]

theorem DeleteByID_removes_only_primary_record_witness :
    Store.get storeAfterInsert (primaryKey productsByCategory.Name "1") =
      some (.tree [("_id", .str "1"), ("category", .str "A")]) ∧
    (DeleteByID productsByCategory storeAfterInsert "1").2 = .ok ∧
    Store.get (DeleteByID productsByCategory storeAfterInsert "1").1
      (primaryKey productsByCategory.Name "1") = none ∧
    Store.get (DeleteByID productsByCategory storeAfterInsert "1").1 "products|category|A|1" =
      Store.get storeAfterInsert "products|category|A|1" ∧
    Store.get storeAfterInsert "products|category|A|1" = some (.text "1") ∧
    DeleteByID productsByCategory storeAfterInsert "2" =
      (storeAfterInsert, .error .keyNotFound) :=
  ⟨rfl,
   congrArg Prod.snd ((DeleteByID_removes_only_primary_record productsByCategory
      storeAfterInsert "1").1 _ rfl).1,
   ((DeleteByID_removes_only_primary_record productsByCategory storeAfterInsert "1").1 _
      rfl).2.1,
   ((DeleteByID_removes_only_primary_record productsByCategory storeAfterInsert "1").1 _
      rfl).2.2 "products|category|A|1" (by decide),
   rfl,
   (DeleteByID_removes_only_primary_record productsByCategory storeAfterInsert "2").2 rfl⟩

/-! ## Update executor on stored documents: `$addToSet` and `$pop`, evaluated -/

/-- C9, evaluated. `$addToSet` of an Array operand panics when the array it meets is a
`[]interface{}` that holds an Array: on the stored document with ID `1`, the update that
pushes the operand `["x"]` to `tags` and then adds the same operand to the set `tags` makes
`UpdateByID` panic instead of leaving the array as `$push` left it, and so does `$set` of
`tags` to the array holding `["y"]` followed by `$addToSet` of `["x"]`, which the array does
not hold.  (The array read back from the store is a `primitive.A`, which `addToSet` replaces
by the array holding the operand alone: `a` and `b` are lost.) -/
theorem UpdateByID_addToSet_array_operand_panics :
    FindByID bsonCodec productsPlain storeWithTags "1" =
      .ok [("_id", .str "1"), ("tags", .arrA [.str "a", .str "b"])] ∧
    UpdateByID bsonCodec addExact sprintBasic 0 productsPlain storeWithTags "1"
        [("$push", .obj [("tags", .arr [.str "x"])]),
         ("$addToSet", .obj [("tags", .arr [.str "x"])])] = (storeWithTags, .panic) ∧
    UpdateByID bsonCodec addExact sprintBasic 0 productsPlain storeWithTags "1"
        [("$set", .obj [("tags", .arr [.arr [.str "y"]])]),
         ("$addToSet", .obj [("tags", .arr [.str "x"])])] = (storeWithTags, .panic) ∧
    applyUpdate addExact [("_id", .str "1"), ("tags", .arrA [.str "a", .str "b"])]
        [("$push", .obj [("tags", .arr [.str "x"])])] =
      ([("_id", .str "1"), ("tags", .arr [.arr [.str "x"]])], .ok) ∧
    FindByID bsonCodec productsPlain
        (UpdateByID bsonCodec addExact sprintBasic 0 productsPlain storeWithTags "1"
          [("$addToSet", .obj [("tags", .str "c")])]).1 "1" =
      .ok [("_id", .str "1"), ("tags", .arrA [.str "c"])] :=
  ⟨rfl, rfl, rfl, rfl, rfl⟩

/-- C20, evaluated. On the stored document with ID `1` whose `tags` hold `a` and `b`, `$pop`
with the Integer direction 1 (and -1) returns the error "invalid value for $pop operation",
and `$pop` with the Float direction 1 (and -1) succeeds and removes nothing: the array read
back from the store is a `primitive.A`, on which the assertion to `[]interface{}` in
`popFromArray` fails. -/
theorem UpdateByID_pop_on_stored_array :
    FindByID bsonCodec productsPlain storeWithTags "1" =
      .ok [("_id", .str "1"), ("tags", .arrA [.str "a", .str "b"])] ∧
    UpdateByID bsonCodec addExact sprintBasic 0 productsPlain storeWithTags "1"
        [("$pop", .obj [("tags", .int 1)])] =
      (storeWithTags, .error (.msg "invalid value for $pop operation")) ∧
    UpdateByID bsonCodec addExact sprintBasic 0 productsPlain storeWithTags "1"
        [("$pop", .obj [("tags", .int (-1))])] =
      (storeWithTags, .error (.msg "invalid value for $pop operation")) ∧
    (UpdateByID bsonCodec addExact sprintBasic 0 productsPlain storeWithTags "1"
        [("$pop", .obj [("tags", .float (.fin 1))])]).2 = .ok ∧
    FindByID bsonCodec productsPlain
        (UpdateByID bsonCodec addExact sprintBasic 0 productsPlain storeWithTags "1"
          [("$pop", .obj [("tags", .float (.fin 1))])]).1 "1" =
      .ok [("_id", .str "1"), ("tags", .arrA [.str "a", .str "b"])] ∧
    (UpdateByID bsonCodec addExact sprintBasic 0 productsPlain storeWithTags "1"
        [("$pop", .obj [("tags", .float (.fin (-1)))])]).2 = .ok ∧
    FindByID bsonCodec productsPlain
        (UpdateByID bsonCodec addExact sprintBasic 0 productsPlain storeWithTags "1"
          [("$pop", .obj [("tags", .float (.fin (-1)))])]).1 "1" =
      .ok [("_id", .str "1"), ("tags", .arrA [.str "a", .str "b"])] :=
  ⟨rfl, rfl, rfl, rfl, rfl, rfl, rfl⟩

end OwlDB
